import Mathlib

/-!
Verification of the minesweeper board engine (`src/hooks/useMinesweeper.ts`).

The engine is embedded shallowly: the board is a list of lists of cells,
each operation is a pure function from state to state.  JavaScript's
out-of-range array access (which throws a `TypeError` on member access of
`undefined`) is modelled by the operations returning `Option`: `none` is
the crash, `some s` a normal return.  `Math.random()`-driven mine
selection is modelled by an explicit random source `rng : Nat → Nat`
(call `i` of the loop draws index `rng i % availableCount`, which ranges
over exactly the indices `Math.floor(Math.random()*len)` can produce).
-/

set_option maxHeartbeats 1000000

namespace Minesweeper

/-- One grid position, mirroring the `Cell` interface. -/
structure Cell where
  row : Int
  col : Int
  isOpen : Bool
  isFlagged : Bool
  isMine : Bool
  neighborCount : Nat
deriving DecidableEq, Repr

/-- `GameStatus` enum. -/
inductive GameStatus where
  | idle
  | playing
  | won
  | lost
deriving DecidableEq, Repr

/-- `GameConfig`. -/
structure GameConfig where
  rows : Nat
  cols : Nat
  mines : Nat
deriving DecidableEq, Repr

/-- The board: `Cell[][]`. -/
abbrev Board := List (List Cell)

/-- `MinesweeperState`. -/
structure MinesweeperState where
  board : Board
  status : GameStatus
  flagCount : Int
  config : GameConfig
deriving DecidableEq, Repr

/-- The eight direction offsets, in source order. -/
def DIRECTIONS : List (Int × Int) :=
  [(-1,-1), (-1,0), (-1,1), (0,-1), (0,1), (1,-1), (1,0), (1,1)]

/-- `createEmptyBoard(rows, cols)`. -/
def createEmptyBoard (rows cols : Nat) : Board :=
  (List.range rows).map (fun (row : Nat) =>
    (List.range cols).map (fun (col : Nat) =>
      { row := (row : Int), col := (col : Int), isOpen := false,
        isFlagged := false, isMine := false, neighborCount := 0 }))

/-- `isValidCell(row, col, rows, cols)`. -/
def isValidCell (row col : Int) (rows cols : Nat) : Bool :=
  0 ≤ row && row < (rows : Int) && 0 ≤ col && col < (cols : Int)

/-- `board[r][c]` as an optional lookup (JS yields `undefined` out of range;
member access on it then throws, which callers model as `none`). -/
def cellAt (b : Board) (r c : Int) : Option Cell :=
  if 0 ≤ r ∧ 0 ≤ c then b[r.toNat]?.bind (fun rowL => rowL[c.toNat]?)
  else none

/-- In-place update `board[r][c] = f (board[r][c])`, functionally. -/
def modifyCell (b : Board) (r c : Int) (f : Cell → Cell) : Board :=
  if 0 ≤ r ∧ 0 ≤ c then
    match b[r.toNat]? with
    | none => b
    | some rowL =>
      match rowL[c.toNat]? with
      | none => b
      | some cell => b.set r.toNat (rowL.set c.toNat (f cell))
  else b

/-- `getNeighbors(row, col, board)`: the in-bounds neighbours in direction
order.  `board[0].length` is read as the length of the first row. -/
def getNeighbors (row col : Int) (b : Board) : List Cell :=
  let rows := b.length
  let cols := (b.getD 0 []).length
  DIRECTIONS.filterMap (fun d =>
    let newRow := row + d.1
    let newCol := col + d.2
    if isValidCell newRow newCol rows cols then cellAt b newRow newCol
    else none)

/-- The exclusion set built by `placeMines`: the clicked cell and its
in-bounds neighbours. -/
def excludeSet (excludeRow excludeCol : Int) (rows cols : Nat) :
    List (Int × Int) :=
  (excludeRow, excludeCol) :: DIRECTIONS.filterMap (fun d =>
    let newRow := excludeRow + d.1
    let newCol := excludeCol + d.2
    if isValidCell newRow newCol rows cols then some (newRow, newCol)
    else none)

/-- The `availablePositions` scan of `placeMines`: all positions, in
row-major order, that are not in the exclusion set. -/
def availablePositions (rows cols : Nat) (ex : List (Int × Int)) :
    List (Int × Int) :=
  (List.range rows).flatMap (fun r =>
    (List.range cols).filterMap (fun c =>
      if ((r : Int), (c : Int)) ∈ ex then none
      else some ((r : Int), (c : Int))))

/-- The random-selection loop of `placeMines`: pick `k` positions without
replacement; draw `i` takes index `rng i % avail.length`. -/
def pickMines (rng : Nat → Nat) : Nat → Nat → List (Int × Int) →
    List (Int × Int)
  | _, 0, _ => []
  | i, k + 1, avail =>
    let idx := rng i % avail.length
    match avail[idx]? with
    | none => []
    | some p => p :: pickMines rng (i + 1) k (avail.eraseIdx idx)

/-- Mark each picked position as a mine (`board[r][c].isMine = true`). -/
def setMinesAt (b : Board) (ps : List (Int × Int)) : Board :=
  ps.foldl (fun bb p =>
    modifyCell bb p.1 p.2 (fun cell => { cell with isMine := true })) b

/-- The nested `for r / for c` pass over a board, applying a
position-dependent transformation to each cell. -/
def mapCols (f : Nat → Nat → Cell → Cell) (r : Nat) :
    Nat → List Cell → List Cell
  | _, [] => []
  | c, cell :: rest => f r c cell :: mapCols f r (c + 1) rest

def mapRows (f : Nat → Nat → Cell → Cell) :
    Nat → List (List Cell) → List (List Cell)
  | _, [] => []
  | r, rowL :: rest => mapCols f r 0 rowL :: mapRows f (r + 1) rest

/-- The final pass of `placeMines`: recompute `neighborCount` of every
non-mine cell from the (fully mined) board. -/
def computeCounts (b : Board) : Board :=
  mapRows (fun r c cell =>
    if cell.isMine then cell
    else { cell with
           neighborCount :=
             ((getNeighbors (r : Int) (c : Int) b).filter
               (fun n => n.isMine)).length }) 0 b

/-- `placeMines(board, excludeRow, excludeCol, mineCount)`. -/
def placeMines (rng : Nat → Nat) (b : Board) (excludeRow excludeCol : Int)
    (mineCount : Nat) : Board :=
  let rows := b.length
  let cols := (b.getD 0 []).length
  let ex := excludeSet excludeRow excludeCol rows cols
  let avail := availablePositions rows cols ex
  let actualMineCount := min mineCount avail.length
  computeCounts (setMinesAt b (pickMines rng 0 actualMineCount avail))

/-- Fuel bound used for the flood-fill recursion: one more than the number
of cells, which strictly bounds the recursion depth. -/
def totalCells (b : Board) : Nat := (b.map List.length).sum

/-- `floodFill(board, row, col)`, with explicit fuel standing in for the
unbounded JavaScript call stack (the fuel passed by the operations always
suffices, see `floodFill_fuel` lemmas). -/
def floodFill : Nat → Board → Int → Int → Board
  | 0, b, _, _ => b
  | fuel + 1, b, r, c =>
    match cellAt b r c with
    | none => b
    | some cell =>
      if cell.isOpen || cell.isFlagged then b
      else
        let b1 := modifyCell b r c (fun cl => { cl with isOpen := true })
        if cell.neighborCount = 0 && !cell.isMine then
          (getNeighbors r c b1).foldl
            (fun bb n => floodFill fuel bb n.row n.col) b1
        else b1

/-- `checkWin(board)`: every cell open or a mine. -/
def checkWin (b : Board) : Bool :=
  b.all (fun rowL => rowL.all (fun cell => cell.isOpen || cell.isMine))

/-- Open every mine on the board (the loss-reveal loop). -/
def revealMines (b : Board) : Board :=
  b.map (fun rowL => rowL.map (fun cell =>
    if cell.isMine then { cell with isOpen := true } else cell))

/-- `openCell(row, col)` as a state transformer; `none` models the crash
on an out-of-range access. -/
def openCell (rng : Nat → Nat) (s : MinesweeperState) (row col : Int) :
    Option MinesweeperState :=
  if s.status = .won ∨ s.status = .lost then some s
  else
    match cellAt s.board row col with
    | none => none
    | some cell =>
      if cell.isOpen || cell.isFlagged then some s
      else
        let newBoard :=
          if s.status = .idle then
            placeMines rng s.board row col s.config.mines
          else s.board
        match cellAt newBoard row col with
        | none => none
        | some targetCell =>
          if targetCell.isMine then
            some { s with
                   board := revealMines
                     (modifyCell newBoard row col
                       (fun cl => { cl with isOpen := true })),
                   status := .lost }
          else
            let nb := floodFill (totalCells newBoard + 1) newBoard row col
            some { s with
                   board := nb,
                   status := if checkWin nb then .won else .playing }

/-- `toggleFlag(row, col)`. -/
def toggleFlag (s : MinesweeperState) (row col : Int) :
    Option MinesweeperState :=
  if s.status = .idle ∨ s.status = .won ∨ s.status = .lost then some s
  else
    match cellAt s.board row col with
    | none => none
    | some cell =>
      if cell.isOpen then some s
      else
        let nb := modifyCell s.board row col
          (fun cl => { cl with isFlagged := !cl.isFlagged })
        some { s with
               board := nb,
               flagCount :=
                 s.flagCount + (if !cell.isFlagged then 1 else -1) }

/-- `chordOpen(row, col)`. -/
def chordOpen (s : MinesweeperState) (row col : Int) :
    Option MinesweeperState :=
  if s.status ≠ .playing then some s
  else
    match cellAt s.board row col with
    | none => none
    | some cell =>
      if !cell.isOpen || cell.neighborCount = 0 then some s
      else
        let neighbors := getNeighbors row col s.board
        let flaggedCount := (neighbors.filter (fun n => n.isFlagged)).length
        if flaggedCount ≠ cell.neighborCount then some s
        else
          let res := neighbors.foldl
            (fun (acc : Board × Bool) n =>
              if !n.isFlagged && !n.isOpen then
                match cellAt acc.1 n.row n.col with
                | none => acc
                | some targetCell =>
                  if targetCell.isMine then
                    (modifyCell acc.1 n.row n.col
                      (fun cl => { cl with isOpen := true }), true)
                  else
                    (floodFill (totalCells acc.1 + 1) acc.1 n.row n.col,
                     acc.2)
              else acc)
            (s.board, false)
          if res.2 then
            some { s with board := revealMines res.1, status := .lost }
          else
            some { s with
                   board := res.1,
                   status := if checkWin res.1 then .won else .playing }

/-- `create(config)`: the initial state built by the hook. -/
def create (config : GameConfig) : MinesweeperState :=
  { board := createEmptyBoard config.rows config.cols,
    status := .idle, flagCount := 0, config := config }

/-- `reset(newConfig?)`. -/
def reset (s : MinesweeperState) (newConfig : Option GameConfig) :
    MinesweeperState :=
  create (newConfig.getD s.config)

/-- One player action; `openA` carries the random source consumed by a
possible first-click mine placement. -/
inductive Action where
  | openA (rng : Nat → Nat) (row col : Int)
  | flagA (row col : Int)
  | chordA (row col : Int)
  | resetA (cfg : Option GameConfig)

/-- One engine step. -/
def step (s : MinesweeperState) : Action → Option MinesweeperState
  | .openA rng r c => openCell rng s r c
  | .flagA r c => toggleFlag s r c
  | .chordA r c => chordOpen s r c
  | .resetA cfg => some (reset s cfg)

/-- Run a list of actions from a state. -/
def runActions (s : MinesweeperState) : List Action →
    Option MinesweeperState
  | [] => some s
  | a :: rest => (step s a).bind (fun s2 => runActions s2 rest)

/-- A state is reachable if some action sequence starting from a freshly
created state produces it. -/
def Reachable (s : MinesweeperState) : Prop :=
  ∃ cfg acts, runActions (create cfg) acts = some s

/-! ### Derived predicates used by the specification statements -/

/-- A cell predicate holding of every cell on the board. -/
def boardAll (p : Cell → Bool) (b : Board) : Bool :=
  b.all (fun rowL => rowL.all p)

/-- Number of flagged cells on the board. -/
def flaggedCount (b : Board) : Nat :=
  (b.map (fun rowL => rowL.countP (fun cell => cell.isFlagged))).sum

/-- Number of closed cells on the board. -/
def closedCount (b : Board) : Nat :=
  (b.map (fun rowL => rowL.countP (fun cell => !cell.isOpen))).sum

/-- The cell at `p` exists and is open. -/
def isOpenAt (b : Board) (p : Int × Int) : Bool :=
  match cellAt b p.1 p.2 with
  | some cell => cell.isOpen
  | none => false

/-- The cell at `p` exists and is closed and unflagged (flood fill would
open it when visiting it). -/
def openableAt (b : Board) (p : Int × Int) : Bool :=
  match cellAt b p.1 p.2 with
  | some cell => !cell.isOpen && !cell.isFlagged
  | none => false

/-- The cell at `p` exists, is closed, unflagged, has no adjacent mines
and is not a mine (flood fill would open it and recurse through it). -/
def expandableAt (b : Board) (p : Int × Int) : Bool :=
  match cellAt b p.1 p.2 with
  | some cell =>
    !cell.isOpen && !cell.isFlagged && (cell.neighborCount == 0) &&
      !cell.isMine
  | none => false

/-- The positions flood fill recurses into from `(r, c)`: the stored
coordinates of the neighbour cells. -/
def neighborPositions (b : Board) (r c : Int) : List (Int × Int) :=
  (getNeighbors r c b).map (fun n => (n.row, n.col))

/-- `b'` is `b` with some closed, unflagged cells opened and nothing else
changed (same shape, all other fields pointwise equal). -/
def OpensOnly (b b' : Board) : Prop :=
  b'.length = b.length ∧
  (∀ i : Nat, (b'[i]?).map List.length = (b[i]?).map List.length) ∧
  ∀ r c : Int, cellAt b' r c = cellAt b r c ∨
    ∃ cell, cellAt b r c = some cell ∧ cell.isOpen = false ∧
      cell.isFlagged = false ∧
      cellAt b' r c = some { cell with isOpen := true }

/-- The set of positions the flood fill starting at `start` reaches on
board `b`: chains of closed, unflagged zero-count non-mine cells starting
at `start`, plus one final step to any closed unflagged neighbour. -/
inductive FloodReach (b : Board) (start : Int × Int) : Int × Int → Prop
  | base : openableAt b start = true → FloodReach b start start
  | step (p q : Int × Int) : FloodReach b start p →
      expandableAt b p = true → q ∈ neighborPositions b p.1 p.2 →
      openableAt b q = true → FloodReach b start q

/-- The cell at `p` exists, is not a mine and has `neighborCount = 0`
(no constraint on its open/flag status). -/
def zeroCellAt (b : Board) (p : Int × Int) : Bool :=
  match cellAt b p.1 p.2 with
  | some cell => !cell.isMine && (cell.neighborCount == 0)
  | none => false

/-- Modelled from the spec's words for the flood-fill closure property:
the "maximal connected region of zero-neighborCount cells" around `start`
together with its immediate border, with connectivity through
zero-neighborCount non-mine cells regardless of their open or flagged
status. -/
inductive SpecZeroReach (b : Board) (start : Int × Int) : Int × Int → Prop
  | base : SpecZeroReach b start start
  | step (p q : Int × Int) : SpecZeroReach b start p →
      zeroCellAt b p = true → q ∈ neighborPositions b p.1 p.2 →
      SpecZeroReach b start q

/-- Every cell of `rowL` (a row at index `r`, cells from column `c`)
stores its own coordinates. -/
def rowCoordsOK (r : Nat) : Nat → List Cell → Bool
  | _, [] => true
  | c, cell :: rest =>
    (cell.row == (r : Int)) && (cell.col == (c : Int)) &&
      rowCoordsOK r (c + 1) rest

/-- Every cell of the board stores its own coordinates. -/
def coordsOK : Nat → Board → Bool
  | _, [] => true
  | r, rowL :: rest => rowCoordsOK r 0 rowL && coordsOK (r + 1) rest

/-- The board is a `rows × cols` rectangle. -/
def boardShape (b : Board) (rows cols : Nat) : Bool :=
  (b.length == rows) && b.all (fun rowL => rowL.length == cols)

/-- No cell is simultaneously open and flagged. -/
def noOpenFlag (b : Board) : Bool :=
  boardAll (fun cell => !(cell.isOpen && cell.isFlagged)) b

/-- Every open-and-flagged cell is a mine. -/
def openFlagIsMine (b : Board) : Bool :=
  boardAll (fun cell => !(cell.isOpen && cell.isFlagged) || cell.isMine) b

/-- Every mine is open. -/
def allMinesOpen (b : Board) : Bool :=
  boardAll (fun cell => !cell.isMine || cell.isOpen) b

/-- The state invariant maintained by every reachable state. -/
def Inv (s : MinesweeperState) : Prop :=
  boardShape s.board s.config.rows s.config.cols = true ∧
  coordsOK 0 s.board = true ∧
  s.flagCount = (flaggedCount s.board : Int) ∧
  (s.status = .idle →
    s.board = createEmptyBoard s.config.rows s.config.cols) ∧
  (s.status ≠ .lost → noOpenFlag s.board = true) ∧
  (s.status = .lost →
    allMinesOpen s.board = true ∧ openFlagIsMine s.board = true) ∧
  (s.status = .won → checkWin s.board = true) ∧
  (s.status = .playing → checkWin s.board = false)

/-- A deterministic random source that always draws index 0. -/
def rng0 : Nat → Nat := fun _ => 0

/-- A deterministic random source reading draws from a list. -/
def rngL (l : List Nat) : Nat → Nat := fun i => l.getD i 0

/-- A small terminal (won) state used to instantiate theorems. -/
def demoWon : MinesweeperState :=
  { board := [[{ row := 0, col := 0, isOpen := true, isFlagged := false,
                 isMine := false, neighborCount := 0 }]],
    status := .won, flagCount := 0, config := ⟨1, 1, 0⟩ }

/-- A small mid-game (playing) state used to instantiate theorems. -/
def demoPlaying : MinesweeperState :=
  { board :=
      [[{ row := 0, col := 0, isOpen := true, isFlagged := false,
          isMine := false, neighborCount := 2 },
        { row := 0, col := 1, isOpen := false, isFlagged := true,
          isMine := false, neighborCount := 1 }],
       [{ row := 1, col := 0, isOpen := false, isFlagged := false,
          isMine := false, neighborCount := 1 },
        { row := 1, col := 1, isOpen := false, isFlagged := false,
          isMine := true, neighborCount := 0 }]],
    status := .playing, flagCount := 1, config := ⟨2, 2, 1⟩ }

/-- The number of mines among the up-to-8 in-bounds neighbours of
`(r, c)`, stated independently of `getNeighbors`' bounds test: a
direction contributes iff the neighbouring cell exists. -/
def mineNeighborCount (b : Board) (r c : Int) : Nat :=
  (DIRECTIONS.filterMap (fun d => cellAt b (r + d.1) (c + d.2))).countP
    (fun n => n.isMine)

/-- The lost state reached on a 3-by-3, 2-mine game (mines drawn by `rng0`
at (0,2) and (1,2)): open (0,0), flag the mine (0,2), then open the mine
(1,2). -/
def c2State : MinesweeperState :=
  (runActions (create ⟨3, 3, 2⟩)
    [Action.openA rng0 0 0, Action.flagA 0 2,
     Action.openA rng0 1 2]).getD (create ⟨3, 3, 2⟩)

/-- The playing state reached on the same game after opening (0,0) and
flagging (0,2). -/
def c7State : MinesweeperState :=
  (runActions (create ⟨3, 3, 2⟩)
    [Action.openA rng0 0 0, Action.flagA 0 2]).getD (create ⟨3, 3, 2⟩)

/-- The state reached from `c7State` by opening the last safe cell. -/
def c5State : MinesweeperState :=
  (openCell rng0 c7State 2 2).getD (create ⟨3, 3, 2⟩)

/-- The playing state reached on a 3-by-5, 3-mine game (mines drawn by
`rngL [0, 2, 6]` along the middle column): open (0,0), then flag (1,4).
The whole right column is a connected zero region, with the flag sitting
inside it. -/
def c4State : MinesweeperState :=
  (runActions (create ⟨3, 5, 3⟩)
    [Action.openA (rngL [0, 2, 6]) 0 0, Action.flagA 1 4]).getD
    (create ⟨3, 5, 3⟩)

/-! ### Theorems -/

/-! #### Basic board lemmas -/

theorem cellAt_of_neg {b : Board} {r c : Int} (h : ¬(0 ≤ r ∧ 0 ≤ c)) :
    cellAt b r c = none := by
  simp [cellAt, h]

theorem cellAt_nonneg {b : Board} {r c : Int} {cell : Cell}
    (h : cellAt b r c = some cell) : 0 ≤ r ∧ 0 ≤ c := by
  by_contra hn
  rw [cellAt_of_neg hn] at h
  exact Option.noConfusion h

theorem cellAt_eq_bind {b : Board} {r c : Int} (hr : 0 ≤ r) (hc : 0 ≤ c) :
    cellAt b r c = b[r.toNat]?.bind (fun rowL => rowL[c.toNat]?) := by
  simp [cellAt, hr, hc]

theorem modifyCell_of_cellAt_none {b : Board} {r c : Int}
    (f : Cell → Cell) (h : cellAt b r c = none) :
    modifyCell b r c f = b := by
  unfold modifyCell
  split
  case isTrue hrc =>
    rw [cellAt_eq_bind hrc.1 hrc.2] at h
    cases hb : b[r.toNat]? with
    | none => rfl
    | some rowL =>
      rw [hb] at h
      rw [Option.some_bind] at h
      show (match rowL[c.toNat]? with
            | none => b
            | some cell => b.set r.toNat (rowL.set c.toNat (f cell))) = b
      rw [h]
  case isFalse => rfl

theorem modifyCell_eq_set {b : Board} {r c : Int} {rowL : List Cell}
    {cell : Cell} (f : Cell → Cell) (hr : 0 ≤ r) (hc : 0 ≤ c)
    (hb : b[r.toNat]? = some rowL) (hcell : rowL[c.toNat]? = some cell) :
    modifyCell b r c f = b.set r.toNat (rowL.set c.toNat (f cell)) := by
  unfold modifyCell
  rw [if_pos ⟨hr, hc⟩, hb]
  show (match rowL[c.toNat]? with
        | none => b
        | some cell => b.set r.toNat (rowL.set c.toNat (f cell))) =
      b.set r.toNat (rowL.set c.toNat (f cell))
  rw [hcell]

theorem length_modifyCell (b : Board) (r c : Int) (f : Cell → Cell) :
    (modifyCell b r c f).length = b.length := by
  cases h : cellAt b r c with
  | none => rw [modifyCell_of_cellAt_none f h]
  | some cell =>
    obtain ⟨hr, hc⟩ := cellAt_nonneg h
    rw [cellAt_eq_bind hr hc] at h
    cases hb : b[r.toNat]? with
    | none => rw [hb] at h; exact Option.noConfusion h
    | some rowL =>
      rw [hb] at h
      rw [Option.some_bind] at h
      rw [modifyCell_eq_set f hr hc hb h, List.length_set]

theorem getElem?_map_length_modifyCell (b : Board) (r c : Int)
    (f : Cell → Cell) (i : Nat) :
    ((modifyCell b r c f)[i]?).map List.length = (b[i]?).map List.length := by
  cases h : cellAt b r c with
  | none => rw [modifyCell_of_cellAt_none f h]
  | some cell =>
    obtain ⟨hr, hc⟩ := cellAt_nonneg h
    rw [cellAt_eq_bind hr hc] at h
    cases hb : b[r.toNat]? with
    | none => rw [hb] at h; exact Option.noConfusion h
    | some rowL =>
      rw [hb] at h
      rw [Option.some_bind] at h
      rw [modifyCell_eq_set f hr hc hb h]
      by_cases hi : r.toNat = i
      · subst hi
        have hlt : r.toNat < b.length := (List.getElem?_eq_some_iff.mp hb).1
        rw [List.getElem?_set_self (by simpa using hlt), hb]
        simp
      · rw [List.getElem?_set_ne hi]

theorem cellAt_modifyCell_self {b : Board} {r c : Int} {cell : Cell}
    (f : Cell → Cell) (h : cellAt b r c = some cell) :
    cellAt (modifyCell b r c f) r c = some (f cell) := by
  obtain ⟨hr, hc⟩ := cellAt_nonneg h
  rw [cellAt_eq_bind hr hc] at h
  cases hb : b[r.toNat]? with
  | none => rw [hb] at h; exact Option.noConfusion h
  | some rowL =>
    rw [hb] at h
    rw [Option.some_bind] at h
    rw [modifyCell_eq_set f hr hc hb h]
    have hltr : r.toNat < b.length := (List.getElem?_eq_some_iff.mp hb).1
    have hltc : c.toNat < rowL.length := (List.getElem?_eq_some_iff.mp h).1
    rw [cellAt_eq_bind hr hc]
    rw [List.getElem?_set_self (by simpa using hltr)]
    rw [Option.some_bind]
    rw [List.getElem?_set_self (by simpa using hltc)]

theorem cellAt_modifyCell_of_ne (b : Board) (r c : Int) (f : Cell → Cell)
    (i j : Int) (hne : ¬(i = r ∧ j = c)) :
    cellAt (modifyCell b r c f) i j = cellAt b i j := by
  cases h : cellAt b r c with
  | none => rw [modifyCell_of_cellAt_none f h]
  | some cell =>
    obtain ⟨hr, hc⟩ := cellAt_nonneg h
    rw [cellAt_eq_bind hr hc] at h
    cases hb : b[r.toNat]? with
    | none => rw [hb] at h; exact Option.noConfusion h
    | some rowL =>
      rw [hb] at h
      rw [Option.some_bind] at h
      rw [modifyCell_eq_set f hr hc hb h]
      by_cases hij : 0 ≤ i ∧ 0 ≤ j
      · rw [cellAt_eq_bind hij.1 hij.2, cellAt_eq_bind hij.1 hij.2]
        by_cases hi : r.toNat = i.toNat
        · have hir : i = r := by omega
          have hjc : j ≠ c := fun hj => hne ⟨hir, hj⟩
          have hcc : c.toNat ≠ j.toNat := by omega
          have hlt : r.toNat < b.length := (List.getElem?_eq_some_iff.mp hb).1
          rw [← hi, List.getElem?_set_self (by simpa using hlt), hb]
          show (rowL.set c.toNat (f cell))[j.toNat]? = rowL[j.toNat]?
          rw [List.getElem?_set_ne hcc]
        · rw [List.getElem?_set_ne hi]
      · rw [cellAt_of_neg hij, cellAt_of_neg hij]

theorem cellAt_boardMap (f : Cell → Cell) (b : Board) (r c : Int) :
    cellAt (b.map (fun rowL => rowL.map f)) r c = (cellAt b r c).map f := by
  by_cases hij : 0 ≤ r ∧ 0 ≤ c
  · rw [cellAt_eq_bind hij.1 hij.2, cellAt_eq_bind hij.1 hij.2,
      List.getElem?_map]
    cases b[r.toNat]? with
    | none => rfl
    | some rowL => simp [List.getElem?_map]
  · rw [cellAt_of_neg hij, cellAt_of_neg hij]; rfl

theorem cellAt_revealMines (b : Board) (r c : Int) :
    cellAt (revealMines b) r c =
      (cellAt b r c).map
        (fun cell => if cell.isMine then { cell with isOpen := true }
         else cell) := by
  exact cellAt_boardMap _ b r c

theorem boardAll_iff {p : Cell → Bool} {b : Board} :
    boardAll p b = true ↔
      ∀ r c : Int, ∀ cell, cellAt b r c = some cell → p cell = true := by
  constructor
  · intro h r c cell hcell
    obtain ⟨hr, hc⟩ := cellAt_nonneg hcell
    rw [cellAt_eq_bind hr hc] at hcell
    cases hb : b[r.toNat]? with
    | none => rw [hb] at hcell; exact Option.noConfusion hcell
    | some rowL =>
      rw [hb] at hcell
      rw [Option.some_bind] at hcell
      have hrow : rowL ∈ b := by
        obtain ⟨hlt, he⟩ := List.getElem?_eq_some_iff.mp hb
        exact he ▸ List.getElem_mem hlt
      have hmem : cell ∈ rowL := by
        obtain ⟨hlt, he⟩ := List.getElem?_eq_some_iff.mp hcell
        exact he ▸ List.getElem_mem hlt
      have := (List.all_eq_true.mp h) rowL hrow
      exact (List.all_eq_true.mp this) cell hmem
  · intro h
    apply List.all_eq_true.mpr
    intro rowL hrow
    apply List.all_eq_true.mpr
    intro cell hmem
    obtain ⟨i, hi⟩ := List.mem_iff_getElem?.mp hrow
    obtain ⟨j, hj⟩ := List.mem_iff_getElem?.mp hmem
    refine h (i : Int) (j : Int) cell ?_
    rw [cellAt_eq_bind (Int.natCast_nonneg i) (Int.natCast_nonneg j)]
    simp only [Int.toNat_natCast, hi, Option.some_bind, hj]

/-! #### Counting lemmas -/

theorem countP_set_balance {α : Type} (p : α → Bool) :
    ∀ (l : List α) (i : Nat) (a x : α), l[i]? = some a →
      (l.set i x).countP p + (if p a then 1 else 0) =
        l.countP p + (if p x then 1 else 0)
  | [], i, a, x, h => by simp at h
  | y :: l, 0, a, x, h => by
    simp only [List.getElem?_cons_zero, Option.some.injEq] at h
    subst h
    simp only [List.set_cons_zero, List.countP_cons]
    omega
  | y :: l, i + 1, a, x, h => by
    simp only [List.getElem?_cons_succ] at h
    have := countP_set_balance p l i a x h
    simp only [List.set_cons_succ, List.countP_cons]
    omega

theorem sum_map_set_balance {α : Type} (g : α → Nat) :
    ∀ (l : List α) (i : Nat) (a x : α), l[i]? = some a →
      ((l.set i x).map g).sum + g a = (l.map g).sum + g x
  | [], i, a, x, h => by simp at h
  | y :: l, 0, a, x, h => by
    simp only [List.getElem?_cons_zero, Option.some.injEq] at h
    subst h
    simp only [List.set_cons_zero, List.map_cons, List.sum_cons]
    omega
  | y :: l, i + 1, a, x, h => by
    simp only [List.getElem?_cons_succ] at h
    have := sum_map_set_balance g l i a x h
    simp only [List.set_cons_succ, List.map_cons, List.sum_cons]
    omega

theorem flaggedCount_modifyCell {b : Board} {r c : Int} {cell : Cell}
    (f : Cell → Cell) (h : cellAt b r c = some cell) :
    flaggedCount (modifyCell b r c f) +
        (if cell.isFlagged then 1 else 0) =
      flaggedCount b + (if (f cell).isFlagged then 1 else 0) := by
  obtain ⟨hr, hc⟩ := cellAt_nonneg h
  rw [cellAt_eq_bind hr hc] at h
  cases hb : b[r.toNat]? with
  | none => rw [hb] at h; exact Option.noConfusion h
  | some rowL =>
    rw [hb] at h
    rw [Option.some_bind] at h
    rw [modifyCell_eq_set f hr hc hb h]
    unfold flaggedCount
    have hrow := countP_set_balance (fun cl => cl.isFlagged) rowL c.toNat
      cell (f cell) h
    have houter := sum_map_set_balance
      (fun l => l.countP (fun cl => cl.isFlagged)) b r.toNat
      rowL (rowL.set c.toNat (f cell)) hb
    dsimp only at hrow houter
    omega

theorem flaggedCount_modifyCell_keep {b : Board} {r c : Int}
    (f : Cell → Cell) (hf : ∀ cl, (f cl).isFlagged = cl.isFlagged) :
    flaggedCount (modifyCell b r c f) = flaggedCount b := by
  cases h : cellAt b r c with
  | none => rw [modifyCell_of_cellAt_none f h]
  | some cell =>
    have := flaggedCount_modifyCell f h
    rw [hf cell] at this
    omega

theorem flaggedCount_boardMap (f : Cell → Cell)
    (hf : ∀ cl, (f cl).isFlagged = cl.isFlagged) (b : Board) :
    flaggedCount (b.map (fun rowL => rowL.map f)) = flaggedCount b := by
  unfold flaggedCount
  rw [List.map_map]
  congr 1
  apply List.map_congr_left
  intro rowL _
  simp only [Function.comp_apply, List.countP_map]
  apply List.countP_congr
  intro cl _
  simp [hf cl]

theorem closedCount_modifyCell {b : Board} {r c : Int} {cell : Cell}
    (f : Cell → Cell) (h : cellAt b r c = some cell) :
    closedCount (modifyCell b r c f) + (if !cell.isOpen then 1 else 0) =
      closedCount b + (if !(f cell).isOpen then 1 else 0) := by
  obtain ⟨hr, hc⟩ := cellAt_nonneg h
  rw [cellAt_eq_bind hr hc] at h
  cases hb : b[r.toNat]? with
  | none => rw [hb] at h; exact Option.noConfusion h
  | some rowL =>
    rw [hb] at h
    rw [Option.some_bind] at h
    rw [modifyCell_eq_set f hr hc hb h]
    unfold closedCount
    have hrow := countP_set_balance (fun cl => !cl.isOpen) rowL c.toNat
      cell (f cell) h
    have houter := sum_map_set_balance
      (fun l => l.countP (fun cl => !cl.isOpen)) b r.toNat
      rowL (rowL.set c.toNat (f cell)) hb
    dsimp only at hrow houter
    omega

theorem closedCount_modifyCell_open (b : Board) (r c : Int) :
    closedCount (modifyCell b r c (fun cl => { cl with isOpen := true })) ≤
      closedCount b := by
  cases h : cellAt b r c with
  | none =>
    rw [modifyCell_of_cellAt_none _ h]
  | some cell =>
    have hbal : closedCount
          (modifyCell b r c (fun cl => { cl with isOpen := true })) +
        (if !cell.isOpen then 1 else 0) = closedCount b + 0 :=
      closedCount_modifyCell (fun cl => { cl with isOpen := true }) h
    omega

theorem closedCount_modifyCell_open_lt {b : Board} {r c : Int} {cell : Cell}
    (h : cellAt b r c = some cell) (hclosed : cell.isOpen = false) :
    closedCount (modifyCell b r c (fun cl => { cl with isOpen := true })) <
      closedCount b := by
  have hbal : closedCount
        (modifyCell b r c (fun cl => { cl with isOpen := true })) +
      (if !cell.isOpen then 1 else 0) = closedCount b + 0 :=
    closedCount_modifyCell (fun cl => { cl with isOpen := true }) h
  rw [hclosed] at hbal
  norm_num at hbal
  omega

/-! #### Positional map (`mapRows`/`mapCols`) lemmas -/

theorem length_mapCols (f : Nat → Nat → Cell → Cell) (r : Nat) :
    ∀ (c0 : Nat) (l : List Cell), (mapCols f r c0 l).length = l.length
  | _, [] => rfl
  | c0, cell :: rest => by
    simp only [mapCols, List.length_cons, length_mapCols f r (c0 + 1) rest]

theorem getElem?_mapCols (f : Nat → Nat → Cell → Cell) (r : Nat) :
    ∀ (c0 : Nat) (l : List Cell) (j : Nat),
      (mapCols f r c0 l)[j]? = (l[j]?).map (f r (c0 + j))
  | _, [], j => by simp [mapCols]
  | c0, cell :: rest, 0 => by simp [mapCols]
  | c0, cell :: rest, j + 1 => by
    simp only [mapCols, List.getElem?_cons_succ]
    rw [getElem?_mapCols f r (c0 + 1) rest j]
    have harith : c0 + 1 + j = c0 + (j + 1) := by omega
    rw [harith]

theorem length_mapRows (f : Nat → Nat → Cell → Cell) :
    ∀ (r0 : Nat) (b : Board), (mapRows f r0 b).length = b.length
  | _, [] => rfl
  | r0, rowL :: rest => by
    simp only [mapRows, List.length_cons, length_mapRows f (r0 + 1) rest]

theorem getElem?_mapRows (f : Nat → Nat → Cell → Cell) :
    ∀ (r0 : Nat) (b : Board) (i : Nat),
      (mapRows f r0 b)[i]? = (b[i]?).map (mapCols f (r0 + i) 0)
  | _, [], i => by simp [mapRows]
  | r0, rowL :: rest, 0 => by simp [mapRows]
  | r0, rowL :: rest, i + 1 => by
    simp only [mapRows, List.getElem?_cons_succ]
    rw [getElem?_mapRows f (r0 + 1) rest i]
    have harith : r0 + 1 + i = r0 + (i + 1) := by omega
    rw [harith]

theorem cellAt_mapRows (f : Nat → Nat → Cell → Cell) (b : Board)
    (r c : Int) (hr : 0 ≤ r) (hc : 0 ≤ c) :
    cellAt (mapRows f 0 b) r c =
      (cellAt b r c).map (f r.toNat c.toNat) := by
  rw [cellAt_eq_bind hr hc, cellAt_eq_bind hr hc, getElem?_mapRows]
  cases b[r.toNat]? with
  | none => rfl
  | some rowL =>
    show (mapCols f (0 + r.toNat) 0 rowL)[c.toNat]? =
      Option.map (f r.toNat c.toNat) rowL[c.toNat]?
    rw [getElem?_mapCols]
    simp

theorem cellAt_computeCounts (b : Board) (r c : Int) :
    cellAt (computeCounts b) r c =
      (cellAt b r c).map (fun cell =>
        if cell.isMine then cell
        else { cell with
               neighborCount :=
                 ((getNeighbors ((r.toNat : Nat) : Int)
                     ((c.toNat : Nat) : Int) b).filter
                   (fun n => n.isMine)).length }) := by
  by_cases hij : 0 ≤ r ∧ 0 ≤ c
  · exact cellAt_mapRows _ b r c hij.1 hij.2
  · rw [cellAt_of_neg hij, cellAt_of_neg hij]; rfl

/-! #### `OpensOnly` and flood-fill preservation lemmas -/

theorem opensOnly_refl (b : Board) : OpensOnly b b :=
  ⟨rfl, fun _ => rfl, fun _ _ => Or.inl rfl⟩

theorem opensOnly_trans {b b' b'' : Board} (h1 : OpensOnly b b')
    (h2 : OpensOnly b' b'') : OpensOnly b b'' := by
  refine ⟨h2.1.trans h1.1, fun i => (h2.2.1 i).trans (h1.2.1 i), ?_⟩
  intro r c
  rcases h2.2.2 r c with he | ⟨cell, hb', hopen, hflag, hb''⟩
  · rcases h1.2.2 r c with he1 | ⟨cell, hb, hopen, hflag, hb'⟩
    · exact Or.inl (he.trans he1)
    · exact Or.inr ⟨cell, hb, hopen, hflag, he.trans hb'⟩
  · rcases h1.2.2 r c with he1 | ⟨cell1, hb, hopen1, hflag1, hb'1⟩
    · exact Or.inr ⟨cell, he1 ▸ hb', hopen, hflag, hb''⟩
    · rw [hb'1] at hb'
      cases hb'
      simp at hopen

theorem opensOnly_modify_open {b : Board} {r c : Int} {cell : Cell}
    (h : cellAt b r c = some cell) (hflag : cell.isFlagged = false) :
    OpensOnly b (modifyCell b r c (fun cl => { cl with isOpen := true })) := by
  refine ⟨length_modifyCell b r c _,fun i => getElem?_map_length_modifyCell b r c _ i, ?_⟩
  intro i j
  by_cases hij : i = r ∧ j = c
  · obtain ⟨hi, hj⟩ := hij
    subst hi; subst hj
    cases hopen : cell.isOpen with
    | false =>
      exact Or.inr ⟨cell, h, hopen, hflag, cellAt_modifyCell_self _ h⟩
    | true =>
      left
      rw [cellAt_modifyCell_self _ h, h]
      congr 1
      cases cell
      simp_all
  · exact Or.inl (cellAt_modifyCell_of_ne b r c _ i j hij)

theorem foldl_preserve_mem {α β : Type} {P : α → Prop} {f : α → β → α} :
    ∀ (l : List β) (init : α), P init →
      (∀ a x, x ∈ l → P a → P (f a x)) → P (l.foldl f init)
  | [], init, h0, _ => h0
  | x :: l, init, h0, hstep => by
    simp only [List.foldl_cons]
    exact foldl_preserve_mem l (f init x)
      (hstep init x (List.mem_cons_self x l) h0)
      (fun a y hy ha => hstep a y (List.mem_cons_of_mem x hy) ha)

theorem floodFill_zero (b : Board) (r c : Int) : floodFill 0 b r c = b := rfl

theorem floodFill_none {b : Board} {r c : Int} (fuel : Nat)
    (h : cellAt b r c = none) : floodFill (fuel + 1) b r c = b := by
  conv_lhs => rw [floodFill]
  rw [h]

theorem floodFill_succ {b : Board} {r c : Int} {cell : Cell} (fuel : Nat)
    (h : cellAt b r c = some cell) :
    floodFill (fuel + 1) b r c =
      if cell.isOpen || cell.isFlagged then b
      else if cell.neighborCount = 0 && !cell.isMine then
        (getNeighbors r c
            (modifyCell b r c (fun cl => { cl with isOpen := true }))).foldl
          (fun bb n => floodFill fuel bb n.row n.col)
          (modifyCell b r c (fun cl => { cl with isOpen := true }))
      else modifyCell b r c (fun cl => { cl with isOpen := true }) := by
  conv_lhs => rw [floodFill]
  rw [h]

theorem floodFill_opensOnly :
    ∀ (fuel : Nat) (b : Board) (r c : Int),
      OpensOnly b (floodFill fuel b r c)
  | 0, b, _, _ => opensOnly_refl b
  | fuel + 1, b, r, c => by
    cases h : cellAt b r c with
    | none => rw [floodFill_none fuel h]; exact opensOnly_refl b
    | some cell =>
      rw [floodFill_succ fuel h]
      by_cases hguard : (cell.isOpen || cell.isFlagged) = true
      · rw [if_pos hguard]; exact opensOnly_refl b
      · rw [if_neg hguard]
        have hguard2 := hguard
        simp only [Bool.or_eq_true, not_or, Bool.not_eq_true] at hguard2
        have hbase := opensOnly_modify_open h hguard2.2
        by_cases hexp : (cell.neighborCount = 0 && !cell.isMine) = true
        · rw [if_pos hexp]
          apply foldl_preserve_mem (P := fun bb => OpensOnly b bb) _ _ hbase
          intro bb n _ hbb
          exact opensOnly_trans hbb (floodFill_opensOnly fuel bb n.row n.col)
        · rw [if_neg hexp]
          exact hbase

theorem floodFill_flaggedCount :
    ∀ (fuel : Nat) (b : Board) (r c : Int),
      flaggedCount (floodFill fuel b r c) = flaggedCount b
  | 0, _, _, _ => rfl
  | fuel + 1, b, r, c => by
    cases h : cellAt b r c with
    | none => rw [floodFill_none fuel h]
    | some cell =>
      rw [floodFill_succ fuel h]
      by_cases hguard : (cell.isOpen || cell.isFlagged) = true
      · rw [if_pos hguard]
      · rw [if_neg hguard]
        have hbase : flaggedCount
            (modifyCell b r c (fun cl => { cl with isOpen := true })) =
              flaggedCount b :=
          flaggedCount_modifyCell_keep _ (fun cl => rfl)
        by_cases hexp : (cell.neighborCount = 0 && !cell.isMine) = true
        · rw [if_pos hexp]
          apply foldl_preserve_mem
            (P := fun bb => flaggedCount bb = flaggedCount b) _ _ hbase
          intro bb n _ hbb
          rw [floodFill_flaggedCount fuel bb n.row n.col, hbb]
        · rw [if_neg hexp]
          exact hbase

theorem floodFill_closedCount_le :
    ∀ (fuel : Nat) (b : Board) (r c : Int),
      closedCount (floodFill fuel b r c) ≤ closedCount b
  | 0, _, _, _ => Nat.le_refl _
  | fuel + 1, b, r, c => by
    cases h : cellAt b r c with
    | none => rw [floodFill_none fuel h]
    | some cell =>
      rw [floodFill_succ fuel h]
      by_cases hguard : (cell.isOpen || cell.isFlagged) = true
      · rw [if_pos hguard]
      · rw [if_neg hguard]
        have hbase := closedCount_modifyCell_open b r c
        by_cases hexp : (cell.neighborCount = 0 && !cell.isMine) = true
        · rw [if_pos hexp]
          apply foldl_preserve_mem
            (P := fun bb => closedCount bb ≤ closedCount b) _ _ hbase
          intro bb n _ hbb
          exact Nat.le_trans (floodFill_closedCount_le fuel bb n.row n.col) hbb
        · rw [if_neg hexp]
          exact hbase

theorem closedCount_le_totalCells :
    ∀ b : Board, closedCount b ≤ totalCells b
  | [] => Nat.le_refl _
  | rowL :: rest => by
    unfold closedCount totalCells
    simp only [List.map_cons, List.sum_cons]
    have h1 : rowL.countP (fun cl => !cl.isOpen) ≤ rowL.length :=
      List.countP_le_length (fun (cl : Cell) => !cl.isOpen)
    have h2 := closedCount_le_totalCells rest
    unfold closedCount totalCells at h2
    omega

theorem opensOnly_fields {b b' : Board} (h : OpensOnly b b') (r c : Int) :
    (cellAt b' r c).map
        (fun cl => (cl.row, cl.col, cl.isFlagged, cl.isMine,
          cl.neighborCount)) =
      (cellAt b r c).map
        (fun cl => (cl.row, cl.col, cl.isFlagged, cl.isMine,
          cl.neighborCount)) := by
  rcases h.2.2 r c with he | ⟨cell, hb, _, _, hb'⟩
  · rw [he]
  · rw [hb, hb']; rfl

theorem opensOnly_isSome {b b' : Board} (h : OpensOnly b b') (r c : Int) :
    (cellAt b' r c).isSome = (cellAt b r c).isSome := by
  rcases h.2.2 r c with he | ⟨cell, hb, _, _, hb'⟩
  · rw [he]
  · rw [hb, hb']; rfl

theorem opensOnly_open_mono {b b' : Board} (h : OpensOnly b b')
    {r c : Int} {cell : Cell} (hb : cellAt b r c = some cell)
    (hopen : cell.isOpen = true) :
    cellAt b' r c = some cell := by
  rcases h.2.2 r c with he | ⟨cell2, hb2, hclosed, _, hb'⟩
  · rw [he, hb]
  · rw [hb2] at hb
    cases hb
    rw [hclosed] at hopen
    exact absurd hopen (by simp)

theorem opensOnly_closed_eq {b b' : Board} (h : OpensOnly b b')
    {r c : Int} {cell' : Cell} (hb' : cellAt b' r c = some cell')
    (hclosed : cell'.isOpen = false) :
    cellAt b r c = some cell' := by
  rcases h.2.2 r c with he | ⟨cell, hb, _, _, hb'2⟩
  · rw [← he, hb']
  · rw [hb'2] at hb'
    cases hb'
    simp at hclosed

theorem opensOnly_cols0 {b b' : Board} (h : OpensOnly b b') :
    (b'.getD 0 []).length = (b.getD 0 []).length := by
  have h0 := h.2.1 0
  cases hb : b[0]? with
  | none =>
    have : b = [] := by
      cases b with
      | nil => rfl
      | cons x xs => simp at hb
    subst this
    have : b' = [] := by
      have := h.1
      simpa using List.length_eq_zero.mp (by simpa using this)
    subst this
    rfl
  | some rowL =>
    cases hb' : b'[0]? with
    | none =>
      rw [hb, hb'] at h0
      simp at h0
    | some rowL' =>
      rw [hb, hb'] at h0
      simp only [Option.map_some'] at h0
      have e1 : b.getD 0 [] = rowL := by
        simp [List.getD, hb]
      have e2 : b'.getD 0 [] = rowL' := by
        simp [List.getD, hb']
      rw [e1, e2]
      simpa using h0

theorem opensOnly_neighborPositions {b b' : Board} (h : OpensOnly b b')
    (r c : Int) : neighborPositions b' r c = neighborPositions b r c := by
  unfold neighborPositions getNeighbors
  rw [List.map_filterMap, List.map_filterMap]
  apply List.filterMap_congr
  intro d _
  simp only
  rw [h.1, opensOnly_cols0 h]
  by_cases hv : isValidCell (r + d.1) (c + d.2) b.length
      ((b.getD 0 []).length) = true
  · rw [if_pos hv, if_pos hv]
    have := opensOnly_fields h (r + d.1) (c + d.2)
    cases hb : cellAt b (r + d.1) (c + d.2) with
    | none =>
      rw [hb] at this
      cases hb' : cellAt b' (r + d.1) (c + d.2) with
      | none => rfl
      | some cl => rw [hb'] at this; simp at this
    | some cl =>
      rw [hb] at this
      cases hb' : cellAt b' (r + d.1) (c + d.2) with
      | none => rw [hb'] at this; simp at this
      | some cl' =>
        rw [hb'] at this
        simp only [Option.map_some', Option.some.injEq, Prod.mk.injEq]
          at this
        simp [this.1, this.2.1]
  · rw [if_neg hv, if_neg hv]

theorem opensOnly_flagAt {b b' : Board} (h : OpensOnly b b') (p : Int × Int) :
    (cellAt b' p.1 p.2).map Cell.isFlagged =
      (cellAt b p.1 p.2).map Cell.isFlagged := by
  have := opensOnly_fields h p.1 p.2
  cases hb : cellAt b p.1 p.2 with
  | none =>
    rw [hb] at this
    cases hb' : cellAt b' p.1 p.2 with
    | none => rfl
    | some cl => rw [hb'] at this; simp at this
  | some cl =>
    rw [hb] at this
    cases hb' : cellAt b' p.1 p.2 with
    | none => rw [hb'] at this; simp at this
    | some cl' =>
      rw [hb'] at this
      simp only [Option.map_some', Option.some.injEq, Prod.mk.injEq] at this
      simp [this.2.2.1]

/-! #### `createEmptyBoard` and `placeMines` lemmas -/

theorem cellAt_createEmptyBoard (rows cols : Nat) (r c : Int) :
    cellAt (createEmptyBoard rows cols) r c =
      if 0 ≤ r ∧ r < (rows : Int) ∧ 0 ≤ c ∧ c < (cols : Int) then
        some { row := r, col := c, isOpen := false, isFlagged := false,
               isMine := false, neighborCount := 0 }
      else none := by
  by_cases hrc : 0 ≤ r ∧ 0 ≤ c
  · rw [cellAt_eq_bind hrc.1 hrc.2]
    unfold createEmptyBoard
    rw [List.getElem?_map]
    by_cases hr : r.toNat < rows
    · rw [List.getElem?_range hr]
      simp only [Option.map_some', Option.some_bind, List.getElem?_map]
      by_cases hc : c.toNat < cols
      · rw [List.getElem?_range hc]
        rw [if_pos ⟨hrc.1, by omega, hrc.2, by omega⟩]
        simp only [Option.map_some', Option.some.injEq]
        congr 1 <;> omega
      · rw [List.getElem?_eq_none (by simpa using hc)]
        rw [if_neg (by omega)]
        rfl
    · rw [List.getElem?_eq_none (by simpa using hr)]
      rw [if_neg (by omega)]
      rfl
  · rw [cellAt_of_neg hrc, if_neg (by omega)]

theorem pickMines_subset (rng : Nat → Nat) :
    ∀ (k i : Nat) (avail : List (Int × Int)) (p : Int × Int),
      p ∈ pickMines rng i k avail → p ∈ avail
  | 0, _, _, _, h => by simp [pickMines] at h
  | k + 1, i, avail, p, h => by
    unfold pickMines at h
    dsimp only at h
    cases hget : avail[rng i % avail.length]? with
    | none => rw [hget] at h; simp at h
    | some q =>
      rw [hget] at h
      rcases List.mem_cons.mp h with he | htail
      · subst he
        obtain ⟨hlt, heq⟩ := List.getElem?_eq_some_iff.mp hget
        exact heq ▸ List.getElem_mem hlt
      · exact List.eraseIdx_subset _ _
          (pickMines_subset rng k (i + 1) _ p htail)

theorem availablePositions_disjoint (rows cols : Nat)
    (ex : List (Int × Int)) (p : Int × Int)
    (h : p ∈ availablePositions rows cols ex) : p ∉ ex := by
  unfold availablePositions at h
  rw [List.mem_flatMap] at h
  obtain ⟨r, _, hr⟩ := h
  rw [List.mem_filterMap] at hr
  obtain ⟨c, _, hc⟩ := hr
  by_cases hmem : ((r : Int), (c : Int)) ∈ ex
  · rw [if_pos hmem] at hc; exact Option.noConfusion hc
  · rw [if_neg hmem] at hc
    cases hc
    exact hmem

theorem excludeSet_self (er ec : Int) (rows cols : Nat) :
    (er, ec) ∈ excludeSet er ec rows cols :=
  List.mem_cons_self _ _

theorem cellAt_setMinesAt (ps : List (Int × Int)) (b : Board) (i j : Int) :
    cellAt (setMinesAt b ps) i j =
      if (i, j) ∈ ps then
        (cellAt b i j).map (fun cl => { cl with isMine := true })
      else cellAt b i j := by
  induction ps generalizing b with
  | nil => simp [setMinesAt]
  | cons p ps ih =>
    show cellAt (setMinesAt
      (modifyCell b p.1 p.2 (fun cl => { cl with isMine := true })) ps) i j
        = _
    rw [ih]
    by_cases hp : i = p.1 ∧ j = p.2
    case pos =>
      obtain ⟨hp1, hp2⟩ := hp
      subst hp1; subst hp2
      have hmemhead : (p.1, p.2) ∈ p :: ps := by
        rw [Prod.mk.eta]; exact List.mem_cons_self p ps
      rw [if_pos hmemhead]
      cases h : cellAt b p.1 p.2 with
      | none =>
        rw [modifyCell_of_cellAt_none _ h]
        by_cases hmem : (p.1, p.2) ∈ ps
        · rw [if_pos hmem, h]
        · rw [if_neg hmem, h]; rfl
      | some cell =>
        have hmod := cellAt_modifyCell_self
          (fun cl => { cl with isMine := true }) h
        by_cases hmem : (p.1, p.2) ∈ ps
        · rw [if_pos hmem, hmod]; rfl
        · rw [if_neg hmem, hmod]; rfl
    case neg =>
      have hne : ¬((i, j) = p) := fun hc => hp ⟨congrArg Prod.fst hc, congrArg Prod.snd hc⟩
      rw [cellAt_modifyCell_of_ne b p.1 p.2 _ i j hp]
      by_cases hmem : (i, j) ∈ ps
      · rw [if_pos hmem, if_pos (List.mem_cons_of_mem p hmem)]
      · rw [if_neg hmem, if_neg (by
          intro hc
          rcases List.mem_cons.mp hc with he | ht
          · exact hne he
          · exact hmem ht)]

theorem placeMines_cellAt_excluded (rng : Nat → Nat) (b : Board)
    (er ec : Int) (m : Nat) {cell : Cell}
    (h : cellAt b er ec = some cell) :
    cellAt (placeMines rng b er ec m) er ec =
      some (if cell.isMine then cell
        else { cell with
               neighborCount :=
                 ((getNeighbors ((er.toNat : Nat) : Int)
                     ((ec.toNat : Nat) : Int)
                   (setMinesAt b (pickMines rng 0
                     (min m (availablePositions b.length
                       ((b.getD 0 []).length)
                       (excludeSet er ec b.length
                         ((b.getD 0 []).length))).length)
                     (availablePositions b.length ((b.getD 0 []).length)
                       (excludeSet er ec b.length
                         ((b.getD 0 []).length)))))).filter
                   (fun n => n.isMine)).length }) := by
  unfold placeMines
  dsimp only
  rw [cellAt_computeCounts, cellAt_setMinesAt]
  rw [if_neg (by
    intro hmem
    exact absurd (excludeSet_self er ec b.length ((b.getD 0 []).length))
      (availablePositions_disjoint _ _ _ _
        (pickMines_subset rng _ 0 _ _ hmem)))]
  rw [h]
  rfl

theorem placeMines_not_mine_exclude (rng : Nat → Nat) (b : Board)
    (er ec : Int) (m : Nat) {cell : Cell}
    (h : cellAt b er ec = some cell) (hmine : cell.isMine = false) :
    ∃ cell', cellAt (placeMines rng b er ec m) er ec = some cell' ∧
      cell'.isMine = false ∧ cell'.isOpen = cell.isOpen ∧
      cell'.isFlagged = cell.isFlagged := by
  refine ⟨_, placeMines_cellAt_excluded rng b er ec m h, ?_⟩
  rw [hmine]
  simp [hmine]

/-! #### `openCell` unfolding lemmas -/

theorem openCell_terminal (rng : Nat → Nat) (s : MinesweeperState)
    (row col : Int) (h : s.status = .won ∨ s.status = .lost) :
    openCell rng s row col = some s := by
  unfold openCell
  rw [if_pos h]

theorem openCell_oob (rng : Nat → Nat) (s : MinesweeperState)
    (row col : Int) (h : ¬(s.status = .won ∨ s.status = .lost))
    (hc : cellAt s.board row col = none) :
    openCell rng s row col = none := by
  unfold openCell
  rw [if_neg h]
  simp only [hc]

theorem openCell_noop (rng : Nat → Nat) (s : MinesweeperState)
    (row col : Int) {cell : Cell}
    (h : ¬(s.status = .won ∨ s.status = .lost))
    (hc : cellAt s.board row col = some cell)
    (hg : (cell.isOpen || cell.isFlagged) = true) :
    openCell rng s row col = some s := by
  unfold openCell
  rw [if_neg h]
  simp only [hc]
  rw [if_pos hg]

theorem openCell_proceed {rng : Nat → Nat} {s : MinesweeperState}
    {row col : Int} {cell : Cell}
    (h : ¬(s.status = .won ∨ s.status = .lost))
    (hc : cellAt s.board row col = some cell)
    (hg : (cell.isOpen || cell.isFlagged) = false) :
    openCell rng s row col =
      match cellAt (if s.status = .idle then
          placeMines rng s.board row col s.config.mines else s.board)
          row col with
      | none => none
      | some targetCell =>
        if targetCell.isMine then
          some { s with
                 board := revealMines
                   (modifyCell (if s.status = .idle then
                       placeMines rng s.board row col s.config.mines
                     else s.board) row col
                     (fun cl => { cl with isOpen := true })),
                 status := .lost }
        else
          some { s with
                 board := floodFill
                   (totalCells (if s.status = .idle then
                       placeMines rng s.board row col s.config.mines
                     else s.board) + 1)
                   (if s.status = .idle then
                       placeMines rng s.board row col s.config.mines
                     else s.board) row col,
                 status := if checkWin (floodFill
                     (totalCells (if s.status = .idle then
                         placeMines rng s.board row col s.config.mines
                       else s.board) + 1)
                     (if s.status = .idle then
                         placeMines rng s.board row col s.config.mines
                       else s.board) row col) then .won
                   else .playing } := by
  unfold openCell
  rw [if_neg h]
  simp only [hc]
  rw [if_neg (by rw [hg]; exact Bool.false_ne_true)]

/-! #### C1: first-click safety -/

/-- C1: for every config and every valid `(row, col)`, opening as the very
first action on a freshly created state never yields status `lost`: the
deferred mine placement excludes the clicked cell, so the first opened
cell is never a mine. -/
theorem C1_firstClick_safety (cfg : GameConfig) (rng : Nat → Nat)
    (row col : Int) {cell : Cell}
    (h : cellAt (create cfg).board row col = some cell) :
    ∃ s', openCell rng (create cfg) row col = some s' ∧
      s'.status ≠ GameStatus.lost := by
  have hstatus : (create cfg).status = GameStatus.idle := rfl
  have hboard : (create cfg).board = createEmptyBoard cfg.rows cfg.cols :=
    rfl
  have hterm : ¬((create cfg).status = .won ∨ (create cfg).status = .lost)
      := by
    rw [hstatus]; intro hc; rcases hc with hc | hc <;> exact
      GameStatus.noConfusion hc
  have hfresh : cell =
      { row := row, col := col, isOpen := false, isFlagged := false,
        isMine := false, neighborCount := 0 } := by
    rw [hboard, cellAt_createEmptyBoard] at h
    by_cases hin : 0 ≤ row ∧ row < (cfg.rows : Int) ∧ 0 ≤ col ∧
        col < (cfg.cols : Int)
    · rw [if_pos hin] at h
      exact (Option.some.injEq _ _ ▸ h).symm
    · rw [if_neg hin] at h
      exact absurd h (by simp)
  have hg : (cell.isOpen || cell.isFlagged) = false := by rw [hfresh]; rfl
  rw [openCell_proceed hterm h hg]
  have hmine0 : cell.isMine = false := by rw [hfresh]
  obtain ⟨target, hT, hTmine, _, _⟩ :=
    placeMines_not_mine_exclude rng (create cfg).board row col
      (create cfg).config.mines h hmine0
  rw [if_pos hstatus]
  simp only [hT]
  rw [if_neg (by rw [hTmine]; exact Bool.false_ne_true)]
  refine ⟨_, rfl, ?_⟩
  by_cases hw : checkWin (floodFill
      (totalCells (placeMines rng (create cfg).board row col
        (create cfg).config.mines) + 1)
      (placeMines rng (create cfg).board row col
        (create cfg).config.mines) row col) = true
  · rw [if_pos hw]
    intro hc
    exact GameStatus.noConfusion hc
  · rw [if_neg hw]
    intro hc
    exact GameStatus.noConfusion hc

/-- Witness for C1 at a concrete input: a 2-by-2 board with one mine,
opening the corner. -/
theorem C1_firstClick_safety_witness :
    ∃ s', openCell rng0 (create ⟨2, 2, 1⟩) 0 0 = some s' ∧
      s'.status ≠ GameStatus.lost :=
  @C1_firstClick_safety ⟨2, 2, 1⟩ rng0 0 0
    (⟨0, 0, false, false, false, 0⟩ : Cell) (by decide)

/-! #### `toggleFlag` and `chordOpen` unfolding lemmas -/

theorem toggleFlag_terminal (s : MinesweeperState) (row col : Int)
    (h : s.status = .idle ∨ s.status = .won ∨ s.status = .lost) :
    toggleFlag s row col = some s := by
  unfold toggleFlag
  rw [if_pos h]

theorem toggleFlag_oob (s : MinesweeperState) (row col : Int)
    (h : ¬(s.status = .idle ∨ s.status = .won ∨ s.status = .lost))
    (hc : cellAt s.board row col = none) :
    toggleFlag s row col = none := by
  unfold toggleFlag
  rw [if_neg h]
  simp only [hc]

theorem toggleFlag_noop_open (s : MinesweeperState) (row col : Int)
    {cell : Cell}
    (h : ¬(s.status = .idle ∨ s.status = .won ∨ s.status = .lost))
    (hc : cellAt s.board row col = some cell)
    (hopen : cell.isOpen = true) :
    toggleFlag s row col = some s := by
  unfold toggleFlag
  rw [if_neg h]
  simp only [hc]
  rw [if_pos hopen]

theorem toggleFlag_go {s : MinesweeperState} {row col : Int} {cell : Cell}
    (h : ¬(s.status = .idle ∨ s.status = .won ∨ s.status = .lost))
    (hc : cellAt s.board row col = some cell)
    (hopen : cell.isOpen = false) :
    toggleFlag s row col =
      some { s with
             board := modifyCell s.board row col
               (fun cl => { cl with isFlagged := !cl.isFlagged }),
             flagCount :=
               s.flagCount + (if !cell.isFlagged then 1 else -1) } := by
  unfold toggleFlag
  rw [if_neg h]
  simp only [hc]
  rw [if_neg (by rw [hopen]; exact Bool.false_ne_true)]

theorem chordOpen_terminal (s : MinesweeperState) (row col : Int)
    (h : s.status ≠ .playing) : chordOpen s row col = some s := by
  unfold chordOpen
  rw [if_pos h]

theorem chordOpen_oob (s : MinesweeperState) (row col : Int)
    (h : s.status = .playing) (hc : cellAt s.board row col = none) :
    chordOpen s row col = none := by
  unfold chordOpen
  rw [if_neg (by rw [h]; exact fun hcon => hcon rfl)]
  simp only [hc]

theorem chordOpen_noop_cell (s : MinesweeperState) (row col : Int)
    {cell : Cell} (h : s.status = .playing)
    (hc : cellAt s.board row col = some cell)
    (hg : cell.isOpen = false ∨ cell.neighborCount = 0) :
    chordOpen s row col = some s := by
  unfold chordOpen
  rw [if_neg (by rw [h]; exact fun hcon => hcon rfl)]
  simp only [hc]
  rw [if_pos (by
    rcases hg with h1 | h1
    · simp [h1]
    · simp [h1])]

theorem chordOpen_noop_flags (s : MinesweeperState) (row col : Int)
    {cell : Cell} (h : s.status = .playing)
    (hc : cellAt s.board row col = some cell)
    (hopen : cell.isOpen = true) (hnc : cell.neighborCount ≠ 0)
    (hfc : ((getNeighbors row col s.board).filter
      (fun n => n.isFlagged)).length ≠ cell.neighborCount) :
    chordOpen s row col = some s := by
  unfold chordOpen
  rw [if_neg (by rw [h]; exact fun hcon => hcon rfl)]
  simp only [hc]
  rw [if_neg (by
    simp only [Bool.or_eq_true, Bool.not_eq_true', hopen]
    push_neg
    exact ⟨fun hcon => Bool.noConfusion hcon, by simpa using hnc⟩)]
  rw [if_pos hfc]

theorem chordOpen_go {s : MinesweeperState} {row col : Int} {cell : Cell}
    (h : s.status = .playing)
    (hc : cellAt s.board row col = some cell)
    (hopen : cell.isOpen = true) (hnc : cell.neighborCount ≠ 0)
    (hfc : ((getNeighbors row col s.board).filter
      (fun n => n.isFlagged)).length = cell.neighborCount) :
    chordOpen s row col =
      (if ((getNeighbors row col s.board).foldl
            (fun (acc : Board × Bool) n =>
              if !n.isFlagged && !n.isOpen then
                match cellAt acc.1 n.row n.col with
                | none => acc
                | some targetCell =>
                  if targetCell.isMine then
                    (modifyCell acc.1 n.row n.col
                      (fun cl => { cl with isOpen := true }), true)
                  else
                    (floodFill (totalCells acc.1 + 1) acc.1 n.row n.col,
                     acc.2)
              else acc)
            (s.board, false)).2 then
        some { s with
               board := revealMines ((getNeighbors row col s.board).foldl
                 (fun (acc : Board × Bool) n =>
                   if !n.isFlagged && !n.isOpen then
                     match cellAt acc.1 n.row n.col with
                     | none => acc
                     | some targetCell =>
                       if targetCell.isMine then
                         (modifyCell acc.1 n.row n.col
                           (fun cl => { cl with isOpen := true }), true)
                       else
                         (floodFill (totalCells acc.1 + 1) acc.1
                           n.row n.col, acc.2)
                   else acc)
                 (s.board, false)).1,
               status := .lost }
      else
        some { s with
               board := ((getNeighbors row col s.board).foldl
                 (fun (acc : Board × Bool) n =>
                   if !n.isFlagged && !n.isOpen then
                     match cellAt acc.1 n.row n.col with
                     | none => acc
                     | some targetCell =>
                       if targetCell.isMine then
                         (modifyCell acc.1 n.row n.col
                           (fun cl => { cl with isOpen := true }), true)
                       else
                         (floodFill (totalCells acc.1 + 1) acc.1
                           n.row n.col, acc.2)
                   else acc)
                 (s.board, false)).1,
               status := if checkWin ((getNeighbors row col s.board).foldl
                   (fun (acc : Board × Bool) n =>
                     if !n.isFlagged && !n.isOpen then
                       match cellAt acc.1 n.row n.col with
                       | none => acc
                       | some targetCell =>
                         if targetCell.isMine then
                           (modifyCell acc.1 n.row n.col
                             (fun cl => { cl with isOpen := true }), true)
                         else
                           (floodFill (totalCells acc.1 + 1) acc.1
                             n.row n.col, acc.2)
                     else acc)
                   (s.board, false)).1 then .won
                 else .playing }) := by
  unfold chordOpen
  rw [if_neg (by rw [h]; exact fun hcon => hcon rfl)]
  simp only [hc]
  rw [if_neg (by
    simp only [Bool.or_eq_true, Bool.not_eq_true', hopen]
    push_neg
    exact ⟨fun hcon => Bool.noConfusion hcon, by simpa using hnc⟩)]
  rw [if_neg (by
    intro hcon
    exact hcon hfc)]

/-! #### C8: defined no-ops -/

/-- C8: every unmet precondition is a defined no-op returning the input
state itself: terminal status for `open`/`toggleFlag`/`chordOpen`, idle
status for `toggleFlag`/`chordOpen`, opening an open or flagged cell,
flagging an open cell, chording a closed or zero-count cell, and chording
with a flagged-neighbour count different from the cell's number. -/
theorem C8_defined_noops :
    (∀ (rng : Nat → Nat) (s : MinesweeperState) (row col : Int),
      s.status = GameStatus.won ∨ s.status = GameStatus.lost →
        openCell rng s row col = some s) ∧
    (∀ (s : MinesweeperState) (row col : Int),
      s.status = GameStatus.idle ∨ s.status = GameStatus.won ∨
          s.status = GameStatus.lost →
        toggleFlag s row col = some s) ∧
    (∀ (s : MinesweeperState) (row col : Int),
      s.status ≠ GameStatus.playing → chordOpen s row col = some s) ∧
    (∀ (rng : Nat → Nat) (s : MinesweeperState) (row col : Int)
        (cell : Cell), cellAt s.board row col = some cell →
      cell.isOpen = true ∨ cell.isFlagged = true →
        openCell rng s row col = some s) ∧
    (∀ (s : MinesweeperState) (row col : Int) (cell : Cell),
      cellAt s.board row col = some cell → cell.isOpen = true →
        toggleFlag s row col = some s) ∧
    (∀ (s : MinesweeperState) (row col : Int) (cell : Cell),
      cellAt s.board row col = some cell →
      cell.isOpen = false ∨ cell.neighborCount = 0 →
        chordOpen s row col = some s) ∧
    (∀ (s : MinesweeperState) (row col : Int) (cell : Cell),
      cellAt s.board row col = some cell → cell.isOpen = true →
      ((getNeighbors row col s.board).filter
          (fun n => n.isFlagged)).length ≠ cell.neighborCount →
        chordOpen s row col = some s) := by
  refine ⟨?_, ?_, ?_, ?_, ?_, ?_, ?_⟩
  · intro rng s row col h
    exact openCell_terminal rng s row col h
  · intro s row col h
    exact toggleFlag_terminal s row col h
  · intro s row col h
    exact chordOpen_terminal s row col h
  · intro rng s row col cell hc hg
    by_cases hterm : s.status = GameStatus.won ∨ s.status = GameStatus.lost
    · exact openCell_terminal rng s row col hterm
    · refine openCell_noop rng s row col hterm hc ?_
      rcases hg with hg | hg <;> simp [hg]
  · intro s row col cell hc hopen
    by_cases hterm : s.status = GameStatus.idle ∨
        s.status = GameStatus.won ∨ s.status = GameStatus.lost
    · exact toggleFlag_terminal s row col hterm
    · exact toggleFlag_noop_open s row col hterm hc hopen
  · intro s row col cell hc hg
    by_cases hp : s.status = GameStatus.playing
    · exact chordOpen_noop_cell s row col hp hc hg
    · exact chordOpen_terminal s row col hp
  · intro s row col cell hc hopen hfc
    by_cases hp : s.status = GameStatus.playing
    · by_cases hnc : cell.neighborCount = 0
      · exact chordOpen_noop_cell s row col hp hc (Or.inr hnc)
      · exact chordOpen_noop_flags s row col hp hc hopen hnc hfc
    · exact chordOpen_terminal s row col hp

/-- Witness for C8 at concrete inputs: a won state and a mid-game state,
exercising each no-op clause. -/
theorem C8_defined_noops_witness :
    openCell rng0 demoWon 0 0 = some demoWon ∧
    toggleFlag demoWon 0 0 = some demoWon ∧
    chordOpen demoWon 0 0 = some demoWon ∧
    openCell rng0 demoPlaying 0 1 = some demoPlaying ∧
    toggleFlag demoPlaying 0 0 = some demoPlaying ∧
    chordOpen demoPlaying 1 0 = some demoPlaying ∧
    chordOpen demoPlaying 0 0 = some demoPlaying := by
  refine ⟨?_, ?_, ?_, ?_, ?_, ?_, ?_⟩
  · exact C8_defined_noops.1 rng0 demoWon 0 0 (Or.inl rfl)
  · exact C8_defined_noops.2.1 demoWon 0 0 (Or.inr (Or.inl rfl))
  · exact C8_defined_noops.2.2.1 demoWon 0 0 (by decide)
  · exact C8_defined_noops.2.2.2.1 rng0 demoPlaying 0 1
      { row := 0, col := 1, isOpen := false, isFlagged := true,
        isMine := false, neighborCount := 1 } (by decide) (Or.inr rfl)
  · exact C8_defined_noops.2.2.2.2.1 demoPlaying 0 0
      { row := 0, col := 0, isOpen := true, isFlagged := false,
        isMine := false, neighborCount := 2 } (by decide) rfl
  · exact C8_defined_noops.2.2.2.2.2.1 demoPlaying 1 0
      { row := 1, col := 0, isOpen := false, isFlagged := false,
        isMine := false, neighborCount := 1 } (by decide) (Or.inl rfl)
  · exact C8_defined_noops.2.2.2.2.2.2 demoPlaying 0 0
      { row := 0, col := 0, isOpen := true, isFlagged := false,
        isMine := false, neighborCount := 2 } (by decide) rfl (by decide)

/-! #### C10: bounds safety -/

theorem boardShape_spec {b : Board} {rows cols : Nat}
    (hs : boardShape b rows cols = true) :
    b.length = rows ∧ ∀ rowL ∈ b, rowL.length = cols := by
  unfold boardShape at hs
  rw [Bool.and_eq_true] at hs
  refine ⟨by simpa using hs.1, ?_⟩
  intro rowL hmem
  have := List.all_eq_true.mp hs.2 rowL hmem
  simpa using this

theorem cellAt_isSome_iff {b : Board} {rows cols : Nat}
    (hs : boardShape b rows cols = true) (r c : Int) :
    (cellAt b r c).isSome = true ↔
      0 ≤ r ∧ r < (rows : Int) ∧ 0 ≤ c ∧ c < (cols : Int) := by
  obtain ⟨hlen, hrows⟩ := boardShape_spec hs
  constructor
  · intro h
    by_cases hrc : 0 ≤ r ∧ 0 ≤ c
    · rw [cellAt_eq_bind hrc.1 hrc.2] at h
      cases hb : b[r.toNat]? with
      | none => rw [hb] at h; simp at h
      | some rowL =>
        rw [hb, Option.some_bind] at h
        cases hcell : rowL[c.toNat]? with
        | none => rw [hcell] at h; simp at h
        | some cell =>
          have h1 : r.toNat < b.length :=
            (List.getElem?_eq_some_iff.mp hb).1
          have h2 : c.toNat < rowL.length :=
            (List.getElem?_eq_some_iff.mp hcell).1
          have hrlen : rowL.length = cols := hrows rowL (by
            obtain ⟨hlt, he⟩ := List.getElem?_eq_some_iff.mp hb
            exact he ▸ List.getElem_mem hlt)
          omega
    · rw [cellAt_of_neg hrc] at h
      simp at h
  · rintro ⟨h1, h2, h3, h4⟩
    rw [cellAt_eq_bind h1 h3]
    have hr : r.toNat < b.length := by omega
    cases hb : b[r.toNat]? with
    | none =>
      rw [List.getElem?_eq_none_iff] at hb
      omega
    | some rowL =>
      rw [Option.some_bind]
      have hrlen : rowL.length = cols := hrows rowL (by
        obtain ⟨hlt, he⟩ := List.getElem?_eq_some_iff.mp hb
        exact he ▸ List.getElem_mem hlt)
      have hcnat : c.toNat < rowL.length := by omega
      cases hcell : rowL[c.toNat]? with
      | none =>
        rw [List.getElem?_eq_none_iff] at hcell
        omega
      | some cell => rfl

theorem cellAt_none_of_oob {b : Board} {rows cols : Nat}
    (hs : boardShape b rows cols = true) {r c : Int}
    (h : ¬(0 ≤ r ∧ r < (rows : Int) ∧ 0 ≤ c ∧ c < (cols : Int))) :
    cellAt b r c = none := by
  cases hcell : cellAt b r c with
  | none => rfl
  | some cell =>
    exact absurd ((cellAt_isSome_iff hs r c).mp (by rw [hcell]; rfl)) h

/-- C10: on a well-formed `rows × cols` board, in-range coordinates make
`open`, `toggleFlag` and `chordOpen` total (no board access fails), while
out-of-range coordinates reaching the initial unguarded `board[row][col]`
access (i.e. when the status guards pass) crash rather than no-op. -/
theorem C10_bounds_safety :
    (∀ (rng : Nat → Nat) (s : MinesweeperState) (row col : Int),
      boardShape s.board s.config.rows s.config.cols = true →
      0 ≤ row ∧ row < (s.config.rows : Int) ∧ 0 ≤ col ∧
          col < (s.config.cols : Int) →
        (openCell rng s row col).isSome = true ∧
        (toggleFlag s row col).isSome = true ∧
        (chordOpen s row col).isSome = true) ∧
    (∀ (rng : Nat → Nat) (s : MinesweeperState) (row col : Int),
      boardShape s.board s.config.rows s.config.cols = true →
      ¬(0 ≤ row ∧ row < (s.config.rows : Int) ∧ 0 ≤ col ∧
          col < (s.config.cols : Int)) →
        (¬(s.status = GameStatus.won ∨ s.status = GameStatus.lost) →
          openCell rng s row col = none) ∧
        (s.status = GameStatus.playing →
          toggleFlag s row col = none ∧ chordOpen s row col = none)) := by
  constructor
  · intro rng s row col hs hin
    obtain ⟨cell, hc⟩ := Option.isSome_iff_exists.mp
      ((cellAt_isSome_iff hs row col).mpr hin)
    refine ⟨?_, ?_, ?_⟩
    · by_cases hterm : s.status = GameStatus.won ∨
          s.status = GameStatus.lost
      · rw [openCell_terminal rng s row col hterm]; rfl
      · by_cases hg : (cell.isOpen || cell.isFlagged) = true
        · rw [openCell_noop rng s row col hterm hc hg]; rfl
        · rw [openCell_proceed hterm hc (by simpa using hg)]
          by_cases hidle : s.status = GameStatus.idle
          · rw [if_pos hidle]
            have hT := placeMines_cellAt_excluded rng s.board row col
              s.config.mines hc
            simp only [hT]
            split <;> rfl
          · rw [if_neg hidle]
            simp only [hc]
            split <;> rfl
    · by_cases hterm : s.status = GameStatus.idle ∨
          s.status = GameStatus.won ∨ s.status = GameStatus.lost
      · rw [toggleFlag_terminal s row col hterm]; rfl
      · by_cases hopen : cell.isOpen = true
        · rw [toggleFlag_noop_open s row col hterm hc hopen]; rfl
        · rw [toggleFlag_go hterm hc (by simpa using hopen)]; rfl
    · by_cases hp : s.status = GameStatus.playing
      · by_cases hopen : cell.isOpen = true
        · by_cases hnc : cell.neighborCount = 0
          · rw [chordOpen_noop_cell s row col hp hc (Or.inr hnc)]; rfl
          · by_cases hfc : ((getNeighbors row col s.board).filter
                (fun n => n.isFlagged)).length = cell.neighborCount
            · rw [chordOpen_go hp hc hopen hnc hfc]
              split <;> rfl
            · rw [chordOpen_noop_flags s row col hp hc hopen hnc hfc]; rfl
        · rw [chordOpen_noop_cell s row col hp hc
            (Or.inl (by simpa using hopen))]; rfl
      · rw [chordOpen_terminal s row col hp]; rfl
  · intro rng s row col hs hout
    have hc : cellAt s.board row col = none := cellAt_none_of_oob hs hout
    refine ⟨?_, ?_⟩
    · intro hterm
      exact openCell_oob rng s row col hterm hc
    · intro hp
      refine ⟨?_, ?_⟩
      · refine toggleFlag_oob s row col ?_ hc
        rw [hp]
        rintro (hcon | hcon | hcon) <;> exact GameStatus.noConfusion hcon
      · exact chordOpen_oob s row col hp hc

/-- Witness for C10 at concrete inputs: the mid-game demo state with an
in-range and an out-of-range coordinate. -/
theorem C10_bounds_safety_witness :
    ((openCell rng0 demoPlaying 1 0).isSome = true ∧
      (toggleFlag demoPlaying 1 0).isSome = true ∧
      (chordOpen demoPlaying 1 0).isSome = true) ∧
    ((¬(demoPlaying.status = GameStatus.won ∨
        demoPlaying.status = GameStatus.lost) →
      openCell rng0 demoPlaying 5 0 = none) ∧
     (demoPlaying.status = GameStatus.playing →
      toggleFlag demoPlaying 5 0 = none ∧
        chordOpen demoPlaying 5 0 = none)) := by
  constructor
  · exact C10_bounds_safety.1 rng0 demoPlaying 1 0 (by decide) (by decide)
  · exact C10_bounds_safety.2 rng0 demoPlaying 5 0 (by decide) (by decide)

/-! #### C3: configuration validation (none exists in the code) -/

/-- C3 counterexample: `create {rows:1, cols:1, mines:0}` is not rejected:
it returns a complete, well-formed idle state (there is no validation and
no error channel in `create`/`reset` at all), and the game even proceeds
normally on it (`open(0,0)` wins immediately). -/
theorem C3_counterexample :
    create ⟨1, 1, 0⟩ =
      { board := [[{ row := 0, col := 0, isOpen := false,
                     isFlagged := false, isMine := false,
                     neighborCount := 0 }]],
        status := GameStatus.idle, flagCount := 0, config := ⟨1, 1, 0⟩ } ∧
    (runActions (create ⟨1, 1, 0⟩) [Action.openA rng0 0 0]).map
        MinesweeperState.status = some GameStatus.won := by
  constructor
  · rfl
  · decide

/-- C3 (amended): `create` and `reset` perform no validation whatsoever:
every config, with `mines ≥ rows*cols` or not, produces a complete fresh
idle state of the requested shape with all cells closed, unflagged and
mine-free, and `reset` is exactly `create` on the chosen config. -/
theorem C3_no_validation (cfg : GameConfig) (s : MinesweeperState)
    (oc : Option GameConfig) :
    create cfg = { board := createEmptyBoard cfg.rows cfg.cols,
                   status := GameStatus.idle, flagCount := 0,
                   config := cfg } ∧
    (create cfg).board.length = cfg.rows ∧
    (∀ rowL ∈ (create cfg).board, rowL.length = cfg.cols) ∧
    (∀ (r c : Int) (cell : Cell),
      cellAt (create cfg).board r c = some cell →
      cell.isOpen = false ∧ cell.isFlagged = false ∧
        cell.isMine = false) ∧
    reset s oc = create (oc.getD s.config) := by
  refine ⟨rfl, ?_, ?_, ?_, rfl⟩
  · show (createEmptyBoard cfg.rows cfg.cols).length = cfg.rows
    unfold createEmptyBoard
    rw [List.length_map, List.length_range]
  · intro rowL hmem
    have hmem2 : rowL ∈ createEmptyBoard cfg.rows cfg.cols := hmem
    unfold createEmptyBoard at hmem2
    rw [List.mem_map] at hmem2
    replace hmem := hmem2
    obtain ⟨row, _, he⟩ := hmem
    rw [← he, List.length_map, List.length_range]
  · intro r c cell hc
    show cell.isOpen = false ∧ cell.isFlagged = false ∧ cell.isMine = false
    rw [show (create cfg).board = createEmptyBoard cfg.rows cfg.cols
        from rfl, cellAt_createEmptyBoard] at hc
    by_cases hin : 0 ≤ r ∧ r < (cfg.rows : Int) ∧ 0 ≤ c ∧
        c < (cfg.cols : Int)
    · rw [if_pos hin] at hc
      cases hc
      exact ⟨rfl, rfl, rfl⟩
    · rw [if_neg hin] at hc
      exact Option.noConfusion hc

/-- Witness for C3's amended theorem at a concrete config. -/
theorem C3_no_validation_witness :
    reset demoWon (some ⟨2, 3, 1⟩) = create ⟨2, 3, 1⟩ ∧
    ∃ cell, cellAt (create ⟨2, 3, 1⟩).board 1 2 = some cell ∧
      cell.isOpen = false ∧ cell.isFlagged = false ∧
        cell.isMine = false := by
  constructor
  · exact (C3_no_validation ⟨2, 3, 1⟩ demoWon (some ⟨2, 3, 1⟩)).2.2.2.2
  · refine ⟨(⟨1, 2, false, false, false, 0⟩ : Cell), by decide, ?_⟩
    exact (C3_no_validation ⟨2, 3, 1⟩ demoWon (some ⟨2, 3, 1⟩)).2.2.2.1 1 2
      (⟨1, 2, false, false, false, 0⟩ : Cell) (by decide)

/-! #### C9: neighbour-count correctness -/

theorem countP_filterMap_congr {α β : Type} (p : β → Bool)
    (f g : α → Option β) (hpq : ∀ a, (f a).map p = (g a).map p) :
    ∀ l : List α, (l.filterMap f).countP p = (l.filterMap g).countP p
  | [] => rfl
  | a :: l => by
    have h := hpq a
    rw [List.filterMap_cons, List.filterMap_cons]
    cases hf : f a with
    | none =>
      rw [hf] at h
      cases hg : g a with
      | none => exact countP_filterMap_congr p f g hpq l
      | some y => rw [hg] at h; simp at h
    | some x =>
      rw [hf] at h
      cases hg : g a with
      | none => rw [hg] at h; simp at h
      | some y =>
        rw [hg] at h
        simp only [Option.map_some', Option.some.injEq] at h
        rw [List.countP_cons, List.countP_cons, h,
          countP_filterMap_congr p f g hpq l]

theorem mineNeighborCount_congr {b b' : Board}
    (h : ∀ r c : Int,
      (cellAt b' r c).map Cell.isMine = (cellAt b r c).map Cell.isMine)
    (r c : Int) : mineNeighborCount b' r c = mineNeighborCount b r c := by
  unfold mineNeighborCount
  exact countP_filterMap_congr _ _ _ (fun d => h (r + d.1) (c + d.2))
    DIRECTIONS

theorem getNeighbors_eq_filterMap {b : Board} {rows cols : Nat}
    (hs : boardShape b rows cols = true) (r c : Int) :
    getNeighbors r c b =
      DIRECTIONS.filterMap (fun d => cellAt b (r + d.1) (c + d.2)) := by
  obtain ⟨hlen, hrows⟩ := boardShape_spec hs
  unfold getNeighbors
  apply List.filterMap_congr
  intro d _
  dsimp only
  by_cases hv : isValidCell (r + d.1) (c + d.2) b.length
      ((b.getD 0 []).length) = true
  · rw [if_pos hv]
  · rw [if_neg hv]
    symm
    unfold isValidCell at hv
    simp only [Bool.and_eq_true, decide_eq_true_eq, not_and] at hv
    cases hb : b with
    | nil =>
      simp [cellAt]
    | cons rowL rest =>
      have hrow0 : (b.getD 0 []).length = cols := by
        rw [hb]
        exact hrows rowL (hb ▸ List.mem_cons_self rowL rest)
      rw [← hb]
      apply cellAt_none_of_oob hs
      rw [hlen, hrow0] at hv
      rintro ⟨h1, h2, h3, h4⟩
      exact hv ⟨⟨h1, h2⟩, h3⟩ h4

theorem length_setMinesAt (ps : List (Int × Int)) (b : Board) :
    (setMinesAt b ps).length = b.length := by
  induction ps generalizing b with
  | nil => rfl
  | cons p ps ih =>
    show (setMinesAt
      (modifyCell b p.1 p.2 (fun cl => { cl with isMine := true })) ps).length
        = b.length
    rw [ih, length_modifyCell]

theorem rowlens_setMinesAt (ps : List (Int × Int)) (b : Board) (i : Nat) :
    ((setMinesAt b ps)[i]?).map List.length = (b[i]?).map List.length := by
  induction ps generalizing b with
  | nil => rfl
  | cons p ps ih =>
    show (((setMinesAt
      (modifyCell b p.1 p.2 (fun cl => { cl with isMine := true })) ps))[i]?).map
        List.length = _
    rw [ih, getElem?_map_length_modifyCell]

theorem boardShape_of_rowlens {b b' : Board} {rows cols : Nat}
    (hlen : b'.length = b.length)
    (hrows : ∀ i : Nat, (b'[i]?).map List.length = (b[i]?).map List.length)
    (hs : boardShape b rows cols = true) :
    boardShape b' rows cols = true := by
  obtain ⟨h1, h2⟩ := boardShape_spec hs
  unfold boardShape
  rw [Bool.and_eq_true]
  constructor
  · simp [hlen, h1]
  · apply List.all_eq_true.mpr
    intro rowL' hmem
    obtain ⟨i, hi⟩ := List.mem_iff_getElem?.mp hmem
    have := hrows i
    rw [hi] at this
    cases hb : b[i]? with
    | none => rw [hb] at this; simp at this
    | some rowL =>
      rw [hb] at this
      simp only [Option.map_some', Option.some.injEq] at this
      have : rowL'.length = cols := by
        rw [this]
        exact h2 rowL (by
          obtain ⟨hlt, he⟩ := List.getElem?_eq_some_iff.mp hb
          exact he ▸ List.getElem_mem hlt)
      simp [this]

theorem boardShape_setMinesAt {b : Board} {rows cols : Nat}
    (ps : List (Int × Int)) (hs : boardShape b rows cols = true) :
    boardShape (setMinesAt b ps) rows cols = true :=
  boardShape_of_rowlens (length_setMinesAt ps b) (rowlens_setMinesAt ps b)
    hs

theorem cellAt_modifyCell_proj {γ : Type} (g : Cell → γ) (b : Board)
    (r c : Int) (f : Cell → Cell) (hf : ∀ cl, g (f cl) = g cl)
    (i j : Int) :
    (cellAt (modifyCell b r c f) i j).map g = (cellAt b i j).map g := by
  by_cases hij : i = r ∧ j = c
  · obtain ⟨h1, h2⟩ := hij
    subst h1; subst h2
    cases h : cellAt b i j with
    | none => rw [modifyCell_of_cellAt_none f h, h]
    | some cell =>
      rw [cellAt_modifyCell_self f h]
      simp [hf cell]
  · rw [cellAt_modifyCell_of_ne b r c f i j hij]

theorem cellAt_boardMap_proj {γ : Type} (g : Cell → γ) (f : Cell → Cell)
    (hf : ∀ cl, g (f cl) = g cl) (b : Board) (i j : Int) :
    (cellAt (b.map (fun rowL => rowL.map f)) i j).map g =
      (cellAt b i j).map g := by
  rw [cellAt_boardMap]
  cases cellAt b i j with
  | none => rfl
  | some cell => simp [hf cell]

theorem opensOnly_proj {γ : Type} {b b' : Board} (h : OpensOnly b b')
    (g : Cell → γ) (hg : ∀ cl, g { cl with isOpen := true } = g cl)
    (i j : Int) :
    (cellAt b' i j).map g = (cellAt b i j).map g := by
  rcases h.2.2 i j with he | ⟨cell, hb, _, _, hb'⟩
  · rw [he]
  · rw [hb, hb']
    simp [hg cell]

theorem chordFold_proj {γ : Type} (g : Cell → γ)
    (hg : ∀ cl, g { cl with isOpen := true } = g cl)
    (l : List Cell) (b0 : Board) :
    ∀ i j : Int,
      (cellAt ((l.foldl
        (fun (acc : Board × Bool) n =>
          if !n.isFlagged && !n.isOpen then
            match cellAt acc.1 n.row n.col with
            | none => acc
            | some targetCell =>
              if targetCell.isMine then
                (modifyCell acc.1 n.row n.col
                  (fun cl => { cl with isOpen := true }), true)
              else
                (floodFill (totalCells acc.1 + 1) acc.1 n.row n.col, acc.2)
          else acc)
        (b0, false)).1) i j).map g = (cellAt b0 i j).map g := by
  intro i j
  apply foldl_preserve_mem
    (P := fun (acc : Board × Bool) =>
      (cellAt acc.1 i j).map g = (cellAt b0 i j).map g)
  · rfl
  · intro acc n _ hacc
    by_cases hgd : (!n.isFlagged && !n.isOpen) = true
    · rw [if_pos hgd]
      cases ht : cellAt acc.1 n.row n.col with
      | none => exact hacc
      | some targetCell =>
        simp only [ht]
        by_cases hm : targetCell.isMine = true
        · rw [if_pos hm]
          show (cellAt (modifyCell acc.1 n.row n.col
            (fun cl => { cl with isOpen := true })) i j).map g = _
          rw [cellAt_modifyCell_proj g acc.1 n.row n.col _ hg i j]
          exact hacc
        · rw [if_neg hm]
          show (cellAt (floodFill (totalCells acc.1 + 1) acc.1
            n.row n.col) i j).map g = _
          rw [opensOnly_proj (floodFill_opensOnly _ acc.1 n.row n.col) g hg
            i j]
          exact hacc
    · rw [if_neg hgd]
      exact hacc

theorem cellAt_revealMines_proj {γ : Type} (g : Cell → γ)
    (hg : ∀ cl, g { cl with isOpen := true } = g cl) (b : Board)
    (i j : Int) :
    (cellAt (revealMines b) i j).map g = (cellAt b i j).map g := by
  rw [cellAt_revealMines]
  cases cellAt b i j with
  | none => rfl
  | some w =>
    by_cases hw : w.isMine = true
    · simp only [Option.map_some']
      rw [if_pos hw]
      exact congrArg some (hg w)
    · simp [hw]

theorem computeCounts_correct {bb : Board} {rows cols : Nat}
    (hs : boardShape bb rows cols = true) (r c : Int) (cell : Cell)
    (h : cellAt (computeCounts bb) r c = some cell)
    (hm : cell.isMine = false) :
    cell.neighborCount = mineNeighborCount (computeCounts bb) r c := by
  obtain ⟨hr, hc⟩ := cellAt_nonneg h
  rw [cellAt_computeCounts] at h
  have hMN : mineNeighborCount (computeCounts bb) r c =
      mineNeighborCount bb r c := by
    apply mineNeighborCount_congr
    intro i j
    rw [cellAt_computeCounts]
    cases cellAt bb i j with
    | none => rfl
    | some w =>
      by_cases hw : w.isMine = true
      · simp [hw]
      · simp [hw]
  rw [hMN]
  cases hu : cellAt bb r c with
  | none => rw [hu] at h; exact Option.noConfusion h
  | some u =>
    rw [hu] at h
    simp only [Option.map_some', Option.some.injEq] at h
    by_cases humine : u.isMine = true
    · rw [if_pos humine] at h
      rw [← h] at hm
      rw [hm] at humine
      exact absurd humine (by simp)
    · rw [if_neg humine] at h
      rw [← h]
      show ((getNeighbors ((r.toNat : Nat) : Int) ((c.toNat : Nat) : Int)
        bb).filter (fun n => n.isMine)).length = mineNeighborCount bb r c
      rw [Int.toNat_of_nonneg hr, Int.toNat_of_nonneg hc]
      rw [getNeighbors_eq_filterMap hs]
      rw [← List.countP_eq_length_filter]
      rfl

/-- C9: immediately after mine placement every non-mine cell's
`neighborCount` equals the exact number of mines among its up-to-8
in-bounds neighbours, and no later operation (`open` on a non-idle state,
`toggleFlag`, `chordOpen`) changes any cell's `neighborCount`. -/
theorem C9_neighbor_count_correct :
    (∀ (rng : Nat → Nat) (b : Board) (rows cols : Nat) (er ec : Int)
        (m : Nat), boardShape b rows cols = true →
      ∀ (r c : Int) (cell : Cell),
        cellAt (placeMines rng b er ec m) r c = some cell →
        cell.isMine = false →
        cell.neighborCount =
          mineNeighborCount (placeMines rng b er ec m) r c) ∧
    (∀ (rng : Nat → Nat) (s : MinesweeperState) (row col : Int)
        (s' : MinesweeperState), s.status ≠ GameStatus.idle →
      openCell rng s row col = some s' →
      ∀ r c : Int, (cellAt s'.board r c).map Cell.neighborCount =
        (cellAt s.board r c).map Cell.neighborCount) ∧
    (∀ (s : MinesweeperState) (row col : Int) (s' : MinesweeperState),
      toggleFlag s row col = some s' →
      ∀ r c : Int, (cellAt s'.board r c).map Cell.neighborCount =
        (cellAt s.board r c).map Cell.neighborCount) ∧
    (∀ (s : MinesweeperState) (row col : Int) (s' : MinesweeperState),
      chordOpen s row col = some s' →
      ∀ r c : Int, (cellAt s'.board r c).map Cell.neighborCount =
        (cellAt s.board r c).map Cell.neighborCount) := by
  have hncOpen : ∀ cl : Cell,
      ({ cl with isOpen := true } : Cell).neighborCount =
        cl.neighborCount := fun _ => rfl
  refine ⟨?_, ?_, ?_, ?_⟩
  · intro rng b rows cols er ec m hs r c cell h hm
    unfold placeMines at h ⊢
    dsimp only at h ⊢
    exact computeCounts_correct (boardShape_setMinesAt _ hs) r c cell h hm
  · intro rng s row col s' hnidle hop r c
    by_cases hterm : s.status = GameStatus.won ∨ s.status = GameStatus.lost
    · rw [openCell_terminal rng s row col hterm] at hop
      cases hop
      rfl
    · cases hc : cellAt s.board row col with
      | none =>
        rw [openCell_oob rng s row col hterm hc] at hop
        exact Option.noConfusion hop
      | some cell =>
        by_cases hg : (cell.isOpen || cell.isFlagged) = true
        · rw [openCell_noop rng s row col hterm hc hg] at hop
          cases hop
          rfl
        · rw [openCell_proceed hterm hc (by simpa using hg)] at hop
          rw [if_neg hnidle] at hop
          simp only [hc] at hop
          by_cases hm : cell.isMine = true
          · rw [if_pos hm] at hop
            cases hop
            show (cellAt (revealMines (modifyCell s.board row col
              (fun cl => { cl with isOpen := true }))) r c).map
                Cell.neighborCount = _
            rw [cellAt_revealMines_proj Cell.neighborCount hncOpen]
            exact cellAt_modifyCell_proj Cell.neighborCount s.board row col
              _ hncOpen r c
          · rw [if_neg hm] at hop
            cases hop
            show (cellAt (floodFill (totalCells s.board + 1) s.board
              row col) r c).map Cell.neighborCount = _
            exact opensOnly_proj
              (floodFill_opensOnly (totalCells s.board + 1) s.board row col)
              Cell.neighborCount hncOpen r c
  · intro s row col s' hop r c
    by_cases hterm : s.status = GameStatus.idle ∨
        s.status = GameStatus.won ∨ s.status = GameStatus.lost
    · rw [toggleFlag_terminal s row col hterm] at hop
      cases hop
      rfl
    · cases hc : cellAt s.board row col with
      | none =>
        rw [toggleFlag_oob s row col hterm hc] at hop
        exact Option.noConfusion hop
      | some cell =>
        by_cases hopen : cell.isOpen = true
        · rw [toggleFlag_noop_open s row col hterm hc hopen] at hop
          cases hop
          rfl
        · rw [toggleFlag_go hterm hc (by simpa using hopen)] at hop
          cases hop
          exact cellAt_modifyCell_proj Cell.neighborCount s.board row col
            (fun cl => { cl with isFlagged := !cl.isFlagged })
            (fun _ => rfl) r c
  · intro s row col s' hop r c
    by_cases hp : s.status = GameStatus.playing
    · cases hc : cellAt s.board row col with
      | none =>
        rw [chordOpen_oob s row col hp hc] at hop
        exact Option.noConfusion hop
      | some cell =>
        by_cases hopen : cell.isOpen = true
        · by_cases hnc : cell.neighborCount = 0
          · rw [chordOpen_noop_cell s row col hp hc (Or.inr hnc)] at hop
            cases hop
            rfl
          · by_cases hfc : ((getNeighbors row col s.board).filter
                (fun n => n.isFlagged)).length = cell.neighborCount
            · rw [chordOpen_go hp hc hopen hnc hfc] at hop
              split at hop
              · cases hop
                show (cellAt (revealMines _) r c).map Cell.neighborCount
                  = _
                rw [cellAt_revealMines_proj Cell.neighborCount hncOpen]
                exact chordFold_proj Cell.neighborCount hncOpen
                  (getNeighbors row col s.board) s.board r c
              · cases hop
                exact chordFold_proj Cell.neighborCount hncOpen
                  (getNeighbors row col s.board) s.board r c
            · rw [chordOpen_noop_flags s row col hp hc hopen hnc hfc]
                at hop
              cases hop
              rfl
        · rw [chordOpen_noop_cell s row col hp hc
            (Or.inl (by simpa using hopen))] at hop
          cases hop
          rfl
    · rw [chordOpen_terminal s row col hp] at hop
      cases hop
      rfl

/-- Witness for C9 at concrete inputs: a 3-by-3 placement and a chord
no-op on the demo state. -/
theorem C9_neighbor_count_correct_witness :
    ((⟨2, 2, false, false, false, 1⟩ : Cell).neighborCount =
      mineNeighborCount (placeMines rng0 (createEmptyBoard 3 3) 0 0 2)
        2 2) ∧
    (cellAt demoPlaying.board 0 1).map Cell.neighborCount = some 1 := by
  constructor
  · exact C9_neighbor_count_correct.1 rng0 (createEmptyBoard 3 3) 3 3 0 0 2
      (by decide) 2 2 (⟨2, 2, false, false, false, 1⟩ : Cell) (by decide)
      rfl
  · exact (C9_neighbor_count_correct.2.2.2 demoPlaying 1 0 demoPlaying
      (by decide) 0 1).trans (by decide)

/-! #### Coordinate bookkeeping and fresh-board lemmas -/

theorem rowCoordsOK_iff (r : Nat) :
    ∀ (c0 : Nat) (l : List Cell),
      rowCoordsOK r c0 l = true ↔
        ∀ (j : Nat) (cell : Cell), l[j]? = some cell →
          cell.row = (r : Int) ∧ cell.col = ((c0 + j : Nat) : Int)
  | c0, [] => by
    constructor
    · intro _ j cell h
      simp at h
    · intro _
      rfl
  | c0, cell0 :: rest => by
    unfold rowCoordsOK
    rw [Bool.and_eq_true, Bool.and_eq_true]
    constructor
    · rintro ⟨⟨h1, h2⟩, h3⟩
      intro j cell h
      cases j with
      | zero =>
        simp only [List.getElem?_cons_zero, Option.some.injEq] at h
        subst h
        refine ⟨by simpa using h1, by simpa using h2⟩
      | succ j =>
        simp only [List.getElem?_cons_succ] at h
        have := (rowCoordsOK_iff r (c0 + 1) rest).mp h3 j cell h
        refine ⟨this.1, ?_⟩
        rw [this.2]
        congr 1
        omega
    · intro h
      have h0 := h 0 cell0 (by simp)
      refine ⟨⟨by simp [h0.1], by simpa using h0.2⟩, ?_⟩
      apply (rowCoordsOK_iff r (c0 + 1) rest).mpr
      intro j cell hj
      have := h (j + 1) cell (by simpa using hj)
      refine ⟨this.1, ?_⟩
      rw [this.2]
      congr 1
      omega

theorem coordsOK_iff :
    ∀ (r0 : Nat) (b : Board),
      coordsOK r0 b = true ↔
        ∀ (i : Nat) (rowL : List Cell), b[i]? = some rowL →
          rowCoordsOK (r0 + i) 0 rowL = true
  | r0, [] => by
    constructor
    · intro _ i rowL h
      simp at h
    · intro _
      rfl
  | r0, rowL0 :: rest => by
    unfold coordsOK
    rw [Bool.and_eq_true]
    constructor
    · rintro ⟨h1, h2⟩
      intro i rowL h
      cases i with
      | zero =>
        simp only [List.getElem?_cons_zero, Option.some.injEq] at h
        subst h
        simpa using h1
      | succ i =>
        simp only [List.getElem?_cons_succ] at h
        have := (coordsOK_iff (r0 + 1) rest).mp h2 i rowL h
        have harith : r0 + 1 + i = r0 + (i + 1) := by omega
        rwa [harith] at this
    · intro h
      refine ⟨by simpa using h 0 rowL0 (by simp), ?_⟩
      apply (coordsOK_iff (r0 + 1) rest).mpr
      intro i rowL hi
      have := h (i + 1) rowL (by simpa using hi)
      have harith : r0 + (i + 1) = r0 + 1 + i := by omega
      rwa [harith] at this

theorem coordsOK_cellAt {b : Board} (h : coordsOK 0 b = true)
    {r c : Int} {cell : Cell} (hc : cellAt b r c = some cell) :
    cell.row = r ∧ cell.col = c := by
  obtain ⟨hr, hcn⟩ := cellAt_nonneg hc
  rw [cellAt_eq_bind hr hcn] at hc
  cases hb : b[r.toNat]? with
  | none => rw [hb] at hc; exact Option.noConfusion hc
  | some rowL =>
    rw [hb, Option.some_bind] at hc
    have hrow := (coordsOK_iff 0 b).mp h r.toNat rowL hb
    have := (rowCoordsOK_iff (0 + r.toNat) 0 rowL).mp hrow c.toNat cell hc
    refine ⟨?_, ?_⟩
    · rw [this.1]
      simp
      omega
    · rw [this.2]
      simp
      omega

theorem coordsOK_of_cellAt {b : Board}
    (h : ∀ (r c : Int) (cell : Cell), cellAt b r c = some cell →
      cell.row = r ∧ cell.col = c) :
    coordsOK 0 b = true := by
  apply (coordsOK_iff 0 b).mpr
  intro i rowL hb
  apply (rowCoordsOK_iff (0 + i) 0 rowL).mpr
  intro j cell hj
  have hcell : cellAt b (i : Int) (j : Int) = some cell := by
    rw [cellAt_eq_bind (Int.natCast_nonneg i) (Int.natCast_nonneg j)]
    simp only [Int.toNat_natCast, hb, Option.some_bind, hj]
  have := h (i : Int) (j : Int) cell hcell
  refine ⟨by rw [this.1]; simp, by rw [this.2]; simp⟩

theorem coordsOK_of_proj {b b' : Board}
    (hproj : ∀ r c : Int, (cellAt b' r c).map (fun cl => (cl.row, cl.col))
      = (cellAt b r c).map (fun cl => (cl.row, cl.col)))
    (h : coordsOK 0 b = true) : coordsOK 0 b' = true := by
  apply coordsOK_of_cellAt
  intro r c cell hc
  have := hproj r c
  rw [hc] at this
  cases hb : cellAt b r c with
  | none => rw [hb] at this; simp at this
  | some cell0 =>
    rw [hb] at this
    simp only [Option.map_some', Option.some.injEq, Prod.mk.injEq] at this
    have h0 := coordsOK_cellAt h hb
    exact ⟨this.1.trans h0.1, this.2.trans h0.2⟩

theorem boardAll_of_proj {p : Cell → Bool} {γ : Type} (g : Cell → γ)
    (pg : γ → Bool) (hp : ∀ cl, p cl = pg (g cl)) {b b' : Board}
    (hproj : ∀ r c : Int, (cellAt b' r c).map g = (cellAt b r c).map g)
    (h : boardAll p b = true) : boardAll p b' = true := by
  apply boardAll_iff.mpr
  intro r c cell hc
  have hpt := hproj r c
  rw [hc] at hpt
  cases hb : cellAt b r c with
  | none => rw [hb] at hpt; simp at hpt
  | some cell0 =>
    rw [hb] at hpt
    simp only [Option.map_some', Option.some.injEq] at hpt
    rw [hp cell, hpt, ← hp cell0]
    exact boardAll_iff.mp h r c cell0 hb

theorem boardShape_createEmptyBoard (rows cols : Nat) :
    boardShape (createEmptyBoard rows cols) rows cols = true := by
  unfold boardShape
  rw [Bool.and_eq_true]
  constructor
  · unfold createEmptyBoard
    simp
  · apply List.all_eq_true.mpr
    intro rowL hmem
    unfold createEmptyBoard at hmem
    rw [List.mem_map] at hmem
    obtain ⟨row, _, he⟩ := hmem
    rw [← he]
    simp

theorem coordsOK_createEmptyBoard (rows cols : Nat) :
    coordsOK 0 (createEmptyBoard rows cols) = true := by
  apply coordsOK_of_cellAt
  intro r c cell hc
  rw [cellAt_createEmptyBoard] at hc
  by_cases hin : 0 ≤ r ∧ r < (rows : Int) ∧ 0 ≤ c ∧ c < (cols : Int)
  · rw [if_pos hin] at hc
    cases hc
    exact ⟨rfl, rfl⟩
  · rw [if_neg hin] at hc
    exact Option.noConfusion hc

theorem flaggedCount_createEmptyBoard (rows cols : Nat) :
    flaggedCount (createEmptyBoard rows cols) = 0 := by
  unfold flaggedCount createEmptyBoard
  apply List.sum_eq_zero
  intro x hx
  rw [List.map_map, List.mem_map] at hx
  obtain ⟨row, _, he⟩ := hx
  rw [← he]
  simp only [Function.comp_apply, List.map_map]
  rw [List.countP_eq_zero]
  intro cell hcell
  rw [List.mem_map] at hcell
  obtain ⟨col, _, hcol⟩ := hcell
  rw [← hcol]
  simp

theorem noOpenFlag_createEmptyBoard (rows cols : Nat) :
    noOpenFlag (createEmptyBoard rows cols) = true := by
  apply boardAll_iff.mpr
  intro r c cell hc
  rw [cellAt_createEmptyBoard] at hc
  by_cases hin : 0 ≤ r ∧ r < (rows : Int) ∧ 0 ≤ c ∧ c < (cols : Int)
  · rw [if_pos hin] at hc
    cases hc
    rfl
  · rw [if_neg hin] at hc
    exact Option.noConfusion hc

theorem checkWin_createEmptyBoard {rows cols : Nat} (hr : 0 < rows)
    (hc : 0 < cols) : checkWin (createEmptyBoard rows cols) = false := by
  by_contra hcon
  rw [Bool.not_eq_false] at hcon
  have := boardAll_iff.mp hcon 0 0
    { row := 0, col := 0, isOpen := false, isFlagged := false,
      isMine := false, neighborCount := 0 } (by
      rw [cellAt_createEmptyBoard]
      rw [if_pos ⟨le_refl 0, by exact_mod_cast hr, le_refl 0,
        by exact_mod_cast hc⟩])
  simp at this

theorem inv_create (cfg : GameConfig) : Inv (create cfg) := by
  refine ⟨boardShape_createEmptyBoard cfg.rows cfg.cols,
    coordsOK_createEmptyBoard cfg.rows cfg.cols, ?_, fun _ => rfl, ?_, ?_,
    ?_, ?_⟩
  · show (0 : Int) = (flaggedCount (createEmptyBoard cfg.rows cfg.cols) : Int)
    rw [flaggedCount_createEmptyBoard]
    rfl
  · intro _
    exact noOpenFlag_createEmptyBoard cfg.rows cfg.cols
  · intro hcon
    exact absurd hcon (by intro hcon2; exact GameStatus.noConfusion hcon2)
  · intro hcon
    exact absurd hcon (by intro hcon2; exact GameStatus.noConfusion hcon2)
  · intro hcon
    exact absurd hcon (by intro hcon2; exact GameStatus.noConfusion hcon2)

/-! #### Invariant transport lemmas -/

theorem noOpenFlag_opensOnly {b b' : Board} (h : noOpenFlag b = true)
    (ho : OpensOnly b b') : noOpenFlag b' = true := by
  apply boardAll_iff.mpr
  intro r c cell hc
  rcases ho.2.2 r c with he | ⟨cell0, hb, hopen0, hflag0, hb'⟩
  · rw [he] at hc
    exact boardAll_iff.mp h r c cell hc
  · rw [hb'] at hc
    cases hc
    simp [hflag0]

theorem allMinesOpen_revealMines (b : Board) :
    allMinesOpen (revealMines b) = true := by
  apply boardAll_iff.mpr
  intro r c cell hc
  rw [cellAt_revealMines] at hc
  cases hb : cellAt b r c with
  | none => rw [hb] at hc; exact Option.noConfusion hc
  | some cell0 =>
    rw [hb] at hc
    simp only [Option.map_some', Option.some.injEq] at hc
    by_cases hm : cell0.isMine = true
    · rw [if_pos hm] at hc
      rw [← hc]
      simp
    · rw [if_neg hm] at hc
      rw [← hc]
      simp only [Bool.not_eq_true] at hm
      simp [hm]

theorem openFlagIsMine_revealMines {b : Board} (h : noOpenFlag b = true) :
    openFlagIsMine (revealMines b) = true := by
  apply boardAll_iff.mpr
  intro r c cell hc
  rw [cellAt_revealMines] at hc
  cases hb : cellAt b r c with
  | none => rw [hb] at hc; exact Option.noConfusion hc
  | some cell0 =>
    rw [hb] at hc
    simp only [Option.map_some', Option.some.injEq] at hc
    have h0 := boardAll_iff.mp h r c cell0 hb
    by_cases hm : cell0.isMine = true
    · rw [if_pos hm] at hc
      rw [← hc]
      simp [hm]
    · rw [if_neg hm] at hc
      rw [← hc]
      show (!(cell0.isOpen && cell0.isFlagged) || cell0.isMine) = true
      rw [h0]
      simp

theorem length_computeCounts (b : Board) :
    (computeCounts b).length = b.length := by
  unfold computeCounts
  rw [length_mapRows]

theorem rowlens_computeCounts (b : Board) (i : Nat) :
    ((computeCounts b)[i]?).map List.length = (b[i]?).map List.length := by
  unfold computeCounts
  rw [getElem?_mapRows]
  cases b[i]? with
  | none => rfl
  | some rowL =>
    simp only [Option.map_some', Option.some.injEq]
    rw [length_mapCols]

theorem boardShape_computeCounts {b : Board} {rows cols : Nat}
    (hs : boardShape b rows cols = true) :
    boardShape (computeCounts b) rows cols = true :=
  boardShape_of_rowlens (length_computeCounts b) (rowlens_computeCounts b)
    hs

theorem boardShape_placeMines {b : Board} {rows cols : Nat}
    (rng : Nat → Nat) (er ec : Int) (m : Nat)
    (hs : boardShape b rows cols = true) :
    boardShape (placeMines rng b er ec m) rows cols = true := by
  unfold placeMines
  dsimp only
  exact boardShape_computeCounts (boardShape_setMinesAt _ hs)

theorem cellAt_setMinesAt_proj {γ : Type} (g : Cell → γ)
    (hg : ∀ cl, g { cl with isMine := true } = g cl)
    (ps : List (Int × Int)) (b : Board) (i j : Int) :
    (cellAt (setMinesAt b ps) i j).map g = (cellAt b i j).map g := by
  rw [cellAt_setMinesAt]
  by_cases hmem : (i, j) ∈ ps
  · rw [if_pos hmem]
    cases cellAt b i j with
    | none => rfl
    | some cell => simp [hg cell]
  · rw [if_neg hmem]

theorem cellAt_computeCounts_proj {γ : Type} (g : Cell → γ)
    (hg : ∀ cl n, g { cl with neighborCount := n } = g cl)
    (b : Board) (i j : Int) :
    (cellAt (computeCounts b) i j).map g = (cellAt b i j).map g := by
  rw [cellAt_computeCounts]
  cases cellAt b i j with
  | none => rfl
  | some cell =>
    by_cases hm : cell.isMine = true
    · simp [hm]
    · simp only [Option.map_some', Option.some.injEq]
      rw [if_neg hm]
      exact hg cell _

theorem cellAt_placeMines_proj {γ : Type} (g : Cell → γ)
    (hgm : ∀ cl, g { cl with isMine := true } = g cl)
    (hgn : ∀ cl n, g { cl with neighborCount := n } = g cl)
    (rng : Nat → Nat) (b : Board) (er ec : Int) (m : Nat) (i j : Int) :
    (cellAt (placeMines rng b er ec m) i j).map g =
      (cellAt b i j).map g := by
  unfold placeMines
  dsimp only
  rw [cellAt_computeCounts_proj g hgn, cellAt_setMinesAt_proj g hgm]

theorem countP_mapCols (p : Cell → Bool) (f : Nat → Nat → Cell → Cell)
    (hf : ∀ r c cl, p (f r c cl) = p cl) (r : Nat) :
    ∀ (c0 : Nat) (l : List Cell),
      (mapCols f r c0 l).countP p = l.countP p
  | _, [] => rfl
  | c0, cell :: rest => by
    unfold mapCols
    rw [List.countP_cons, List.countP_cons, hf r c0 cell,
      countP_mapCols p f hf r (c0 + 1) rest]

theorem flaggedCount_mapRows (f : Nat → Nat → Cell → Cell)
    (hf : ∀ r c cl, (f r c cl).isFlagged = cl.isFlagged) :
    ∀ (r0 : Nat) (b : Board),
      flaggedCount (mapRows f r0 b) = flaggedCount b
  | _, [] => rfl
  | r0, rowL :: rest => by
    unfold mapRows flaggedCount
    simp only [List.map_cons, List.sum_cons]
    have h1 := countP_mapCols (fun cl => cl.isFlagged) f
      (fun r c cl => hf r c cl) r0 0 rowL
    have h2 := flaggedCount_mapRows f hf (r0 + 1) rest
    unfold flaggedCount at h2
    omega

theorem flaggedCount_setMinesAt (ps : List (Int × Int)) (b : Board) :
    flaggedCount (setMinesAt b ps) = flaggedCount b := by
  induction ps generalizing b with
  | nil => rfl
  | cons p ps ih =>
    show flaggedCount (setMinesAt
      (modifyCell b p.1 p.2 (fun cl => { cl with isMine := true })) ps) = _
    rw [ih, flaggedCount_modifyCell_keep
      (fun cl => { cl with isMine := true }) (fun _ => rfl)]

theorem flaggedCount_placeMines (rng : Nat → Nat) (b : Board)
    (er ec : Int) (m : Nat) :
    flaggedCount (placeMines rng b er ec m) = flaggedCount b := by
  unfold placeMines
  dsimp only
  unfold computeCounts
  rw [flaggedCount_mapRows _ (fun r c cl => by
    by_cases hm : cl.isMine = true
    · simp [hm]
    · simp [hm]), flaggedCount_setMinesAt]

theorem flaggedCount_revealMines (b : Board) :
    flaggedCount (revealMines b) = flaggedCount b := by
  unfold revealMines
  apply flaggedCount_boardMap
  intro cl
  by_cases hm : cl.isMine = true
  · simp [hm]
  · simp [hm]

theorem mem_getNeighbors_cellAt {b : Board} (hcoords : coordsOK 0 b = true)
    {r c : Int} {n : Cell} (hmem : n ∈ getNeighbors r c b) :
    cellAt b n.row n.col = some n := by
  unfold getNeighbors at hmem
  rw [List.mem_filterMap] at hmem
  obtain ⟨d, _, hd⟩ := hmem
  dsimp only at hd
  by_cases hv : isValidCell (r + d.1) (c + d.2) b.length
      ((b.getD 0 []).length) = true
  · rw [if_pos hv] at hd
    have := coordsOK_cellAt hcoords hd
    rw [this.1, this.2]
    exact hd
  · rw [if_neg hv] at hd
    exact Option.noConfusion hd

theorem chordFold_opensOnly {b0 : Board} (hcoords : coordsOK 0 b0 = true)
    (r c : Int) :
    OpensOnly b0 (((getNeighbors r c b0).foldl
      (fun (acc : Board × Bool) n =>
        if !n.isFlagged && !n.isOpen then
          match cellAt acc.1 n.row n.col with
          | none => acc
          | some targetCell =>
            if targetCell.isMine then
              (modifyCell acc.1 n.row n.col
                (fun cl => { cl with isOpen := true }), true)
            else
              (floodFill (totalCells acc.1 + 1) acc.1 n.row n.col, acc.2)
        else acc)
      (b0, false)).1) := by
  apply foldl_preserve_mem
    (P := fun (acc : Board × Bool) => OpensOnly b0 acc.1)
  · exact opensOnly_refl b0
  · intro acc n hn hacc
    by_cases hgd : (!n.isFlagged && !n.isOpen) = true
    · rw [if_pos hgd]
      cases ht : cellAt acc.1 n.row n.col with
      | none => exact hacc
      | some targetCell =>
        simp only [ht]
        have hnflag : n.isFlagged = false := by
          rw [Bool.and_eq_true] at hgd
          simpa using hgd.1
        have hb0n : cellAt b0 n.row n.col = some n :=
          mem_getNeighbors_cellAt hcoords hn
        have htflag : targetCell.isFlagged = false := by
          have := opensOnly_flagAt hacc (n.row, n.col)
          dsimp only at this
          rw [ht, hb0n] at this
          simp only [Option.map_some', Option.some.injEq] at this
          rw [this, hnflag]
        by_cases hm : targetCell.isMine = true
        · rw [if_pos hm]
          exact opensOnly_trans hacc (opensOnly_modify_open ht htflag)
        · rw [if_neg hm]
          exact opensOnly_trans hacc
            (floodFill_opensOnly (totalCells acc.1 + 1) acc.1 n.row n.col)
    · rw [if_neg hgd]
      exact hacc

theorem chordFold_flaggedCount (l : List Cell) (b0 : Board) :
    flaggedCount ((l.foldl
      (fun (acc : Board × Bool) n =>
        if !n.isFlagged && !n.isOpen then
          match cellAt acc.1 n.row n.col with
          | none => acc
          | some targetCell =>
            if targetCell.isMine then
              (modifyCell acc.1 n.row n.col
                (fun cl => { cl with isOpen := true }), true)
            else
              (floodFill (totalCells acc.1 + 1) acc.1 n.row n.col, acc.2)
        else acc)
      (b0, false)).1) = flaggedCount b0 := by
  apply foldl_preserve_mem
    (P := fun (acc : Board × Bool) => flaggedCount acc.1 = flaggedCount b0)
  · rfl
  · intro acc n _ hacc
    by_cases hgd : (!n.isFlagged && !n.isOpen) = true
    · rw [if_pos hgd]
      cases ht : cellAt acc.1 n.row n.col with
      | none => exact hacc
      | some targetCell =>
        simp only [ht]
        by_cases hm : targetCell.isMine = true
        · rw [if_pos hm]
          show flaggedCount (modifyCell acc.1 n.row n.col
            (fun cl => { cl with isOpen := true })) = _
          rw [flaggedCount_modifyCell_keep
            (fun cl => { cl with isOpen := true }) (fun _ => rfl)]
          exact hacc
        · rw [if_neg hm]
          show flaggedCount (floodFill (totalCells acc.1 + 1) acc.1
            n.row n.col) = _
          rw [floodFill_flaggedCount]
          exact hacc
    · rw [if_neg hgd]
      exact hacc

/-! #### Invariant preservation -/

theorem boardShape_opensOnly {b b' : Board} {rows cols : Nat}
    (ho : OpensOnly b b') (hs : boardShape b rows cols = true) :
    boardShape b' rows cols = true :=
  boardShape_of_rowlens ho.1 ho.2.1 hs

theorem boardShape_modifyCell {b : Board} {rows cols : Nat} (r c : Int)
    (f : Cell → Cell) (hs : boardShape b rows cols = true) :
    boardShape (modifyCell b r c f) rows cols = true :=
  boardShape_of_rowlens (length_modifyCell b r c f)
    (getElem?_map_length_modifyCell b r c f) hs

theorem length_revealMines (b : Board) :
    (revealMines b).length = b.length := by
  unfold revealMines
  rw [List.length_map]

theorem rowlens_revealMines (b : Board) (i : Nat) :
    ((revealMines b)[i]?).map List.length = (b[i]?).map List.length := by
  unfold revealMines
  rw [List.getElem?_map]
  cases b[i]? with
  | none => rfl
  | some rowL => simp

theorem boardShape_revealMines {b : Board} {rows cols : Nat}
    (hs : boardShape b rows cols = true) :
    boardShape (revealMines b) rows cols = true :=
  boardShape_of_rowlens (length_revealMines b) (rowlens_revealMines b) hs

theorem checkWin_eq_boardAll (b : Board) :
    checkWin b = boardAll (fun cell => cell.isOpen || cell.isMine) b := rfl

theorem inv_play_result {s : MinesweeperState} {B : Board}
    (hshape : boardShape B s.config.rows s.config.cols = true)
    (hcoords : coordsOK 0 B = true)
    (hfc : s.flagCount = (flaggedCount B : Int))
    (hnof : noOpenFlag B = true) :
    Inv { s with board := B,
                 status := if checkWin B then GameStatus.won
                   else GameStatus.playing } := by
  refine ⟨hshape, hcoords, hfc, ?_, ?_, ?_, ?_, ?_⟩
  · intro h
    by_cases hcw : checkWin B = true
    · rw [if_pos hcw] at h
      exact absurd h (by intro hcon; exact GameStatus.noConfusion hcon)
    · rw [if_neg hcw] at h
      exact absurd h (by intro hcon; exact GameStatus.noConfusion hcon)
  · intro _
    exact hnof
  · intro h
    by_cases hcw : checkWin B = true
    · rw [if_pos hcw] at h
      exact absurd h (by intro hcon; exact GameStatus.noConfusion hcon)
    · rw [if_neg hcw] at h
      exact absurd h (by intro hcon; exact GameStatus.noConfusion hcon)
  · intro h
    by_cases hcw : checkWin B = true
    · exact hcw
    · rw [if_neg hcw] at h
      exact absurd h (by intro hcon; exact GameStatus.noConfusion hcon)
  · intro h
    by_cases hcw : checkWin B = true
    · rw [if_pos hcw] at h
      exact absurd h (by intro hcon; exact GameStatus.noConfusion hcon)
    · simpa using hcw

theorem inv_lost_result {s : MinesweeperState} {B : Board}
    (hshape : boardShape B s.config.rows s.config.cols = true)
    (hcoords : coordsOK 0 B = true)
    (hfc : s.flagCount = (flaggedCount B : Int))
    (hnof : noOpenFlag B = true) :
    Inv { s with board := revealMines B, status := GameStatus.lost } := by
  refine ⟨boardShape_revealMines hshape, ?_, ?_, ?_, ?_, ?_, ?_, ?_⟩
  · exact coordsOK_of_proj
      (fun r c => cellAt_revealMines_proj (fun cl => (cl.row, cl.col))
        (fun _ => rfl) B r c) hcoords
  · show s.flagCount = (flaggedCount (revealMines B) : Int)
    rw [flaggedCount_revealMines]
    exact hfc
  · intro h
    exact absurd h (by intro hcon; exact GameStatus.noConfusion hcon)
  · intro h
    exact absurd rfl h
  · intro _
    exact ⟨allMinesOpen_revealMines B, openFlagIsMine_revealMines hnof⟩
  · intro h
    exact absurd h (by intro hcon; exact GameStatus.noConfusion hcon)
  · intro h
    exact absurd h (by intro hcon; exact GameStatus.noConfusion hcon)

theorem checkWin_eq_of_proj {b b' : Board}
    (hproj : ∀ r c : Int,
      (cellAt b' r c).map (fun cl => (cl.isOpen, cl.isMine)) =
        (cellAt b r c).map (fun cl => (cl.isOpen, cl.isMine))) :
    checkWin b' = checkWin b := by
  cases hw : checkWin b
  · cases hw2 : checkWin b'
    · rfl
    · have : checkWin b = true :=
        boardAll_of_proj (fun cl => (cl.isOpen, cl.isMine))
          (fun pr => pr.1 || pr.2) (fun _ => rfl)
          (fun r c => (hproj r c).symm) hw2
      rw [hw] at this
      exact Bool.noConfusion this
  · exact boardAll_of_proj (fun cl => (cl.isOpen, cl.isMine))
      (fun pr => pr.1 || pr.2) (fun _ => rfl) hproj hw

theorem inv_toggleFlag {s s' : MinesweeperState} {row col : Int}
    (hInv : Inv s) (h : toggleFlag s row col = some s') : Inv s' := by
  obtain ⟨hshape, hcoords, hflag, hidle, hnof, hlost, hwon, hplay⟩ := hInv
  by_cases hterm : s.status = GameStatus.idle ∨ s.status = GameStatus.won ∨
      s.status = GameStatus.lost
  · rw [toggleFlag_terminal s row col hterm] at h
    cases h
    exact ⟨hshape, hcoords, hflag, hidle, hnof, hlost, hwon, hplay⟩
  · have hp : s.status = GameStatus.playing := by
      cases hst : s.status
      · exact absurd (Or.inl hst) hterm
      · rfl
      · exact absurd (Or.inr (Or.inl hst)) hterm
      · exact absurd (Or.inr (Or.inr hst)) hterm
    cases hc : cellAt s.board row col with
    | none =>
      rw [toggleFlag_oob s row col hterm hc] at h
      exact Option.noConfusion h
    | some cell =>
      by_cases hopen : cell.isOpen = true
      · rw [toggleFlag_noop_open s row col hterm hc hopen] at h
        cases h
        exact ⟨hshape, hcoords, hflag, hidle, hnof, hlost, hwon, hplay⟩
      · rw [toggleFlag_go hterm hc (by simpa using hopen)] at h
        cases h
        refine ⟨boardShape_modifyCell row col _ hshape,
          coordsOK_of_proj (fun r c => cellAt_modifyCell_proj
            (fun cl => (cl.row, cl.col)) s.board row col
            (fun cl => { cl with isFlagged := !cl.isFlagged })
            (fun _ => rfl) r c) hcoords, ?_, ?_, ?_, ?_, ?_, ?_⟩
        · show s.flagCount + (if !cell.isFlagged then 1 else -1) =
            (flaggedCount (modifyCell s.board row col
              (fun cl => { cl with isFlagged := !cl.isFlagged })) : Int)
          have hbal : flaggedCount (modifyCell s.board row col
                (fun cl => { cl with isFlagged := !cl.isFlagged })) +
                (if cell.isFlagged then 1 else 0) =
              flaggedCount s.board + (if !cell.isFlagged then 1 else 0) :=
            flaggedCount_modifyCell _ hc
          rw [hflag]
          by_cases hcf : cell.isFlagged = true
          · simp only [hcf] at hbal ⊢
            norm_num at hbal ⊢
            omega
          · simp only [Bool.not_eq_true] at hcf
            simp only [hcf] at hbal ⊢
            norm_num at hbal ⊢
            omega
        · intro hcon
          rw [hp] at hcon
          exact GameStatus.noConfusion hcon
        · intro _
          apply boardAll_iff.mpr
          intro i j cl hcl
          by_cases hij : i = row ∧ j = col
          · obtain ⟨h1, h2⟩ := hij
            subst h1; subst h2
            rw [cellAt_modifyCell_self _ hc] at hcl
            cases hcl
            show (!((cell.isOpen : Bool) && !cell.isFlagged)) = true
            simp only [Bool.not_eq_true] at hopen
            rw [hopen]
            rfl
          · rw [cellAt_modifyCell_of_ne s.board row col _ i j hij] at hcl
            have hnof2 := hnof (by rw [hp]; intro hcon; exact GameStatus.noConfusion hcon)
            exact boardAll_iff.mp hnof2 i j cl hcl
        · intro hcon
          rw [hp] at hcon
          exact GameStatus.noConfusion hcon
        · intro hcon
          rw [hp] at hcon
          exact GameStatus.noConfusion hcon
        · intro _
          show checkWin (modifyCell s.board row col
            (fun cl => { cl with isFlagged := !cl.isFlagged })) = false
          rw [checkWin_eq_of_proj (fun r c => cellAt_modifyCell_proj
            (fun cl => (cl.isOpen, cl.isMine)) s.board row col
            (fun cl => { cl with isFlagged := !cl.isFlagged })
            (fun _ => rfl) r c)]
          exact hplay hp

theorem inv_openCell {rng : Nat → Nat} {s s' : MinesweeperState}
    {row col : Int} (hInv : Inv s)
    (h : openCell rng s row col = some s') : Inv s' := by
  obtain ⟨hshape, hcoords, hflag, hidle, hnof, hlost, hwon, hplay⟩ := hInv
  by_cases hterm : s.status = GameStatus.won ∨ s.status = GameStatus.lost
  · rw [openCell_terminal rng s row col hterm] at h
    cases h
    exact ⟨hshape, hcoords, hflag, hidle, hnof, hlost, hwon, hplay⟩
  · have hnlost : s.status ≠ GameStatus.lost := fun hcon =>
      hterm (Or.inr hcon)
    have hnof' := hnof hnlost
    cases hc : cellAt s.board row col with
    | none =>
      rw [openCell_oob rng s row col hterm hc] at h
      exact Option.noConfusion h
    | some cell =>
      by_cases hg : (cell.isOpen || cell.isFlagged) = true
      · rw [openCell_noop rng s row col hterm hc hg] at h
        cases h
        exact ⟨hshape, hcoords, hflag, hidle, hnof, hlost, hwon, hplay⟩
      · have hg' : (cell.isOpen || cell.isFlagged) = false := by
          simpa using hg
        have hcellflag : cell.isFlagged = false := by
          rw [Bool.or_eq_false_iff] at hg'
          exact hg'.2
        rw [openCell_proceed hterm hc hg'] at h
        by_cases hid : s.status = GameStatus.idle
        · rw [if_pos hid] at h
          have hcellmine : cell.isMine = false := by
            have hcc := hc
            rw [hidle hid, cellAt_createEmptyBoard] at hcc
            by_cases hin : 0 ≤ row ∧ row < (s.config.rows : Int) ∧
                0 ≤ col ∧ col < (s.config.cols : Int)
            · rw [if_pos hin] at hcc
              cases hcc
              rfl
            · rw [if_neg hin] at hcc
              exact Option.noConfusion hcc
          obtain ⟨target, hT, hTm, _, _⟩ := placeMines_not_mine_exclude rng
            s.board row col s.config.mines hc hcellmine
          have hnbshape : boardShape
              (placeMines rng s.board row col s.config.mines)
              s.config.rows s.config.cols = true :=
            boardShape_placeMines rng row col s.config.mines hshape
          have hnbcoords : coordsOK 0
              (placeMines rng s.board row col s.config.mines) = true :=
            coordsOK_of_proj (fun r c => cellAt_placeMines_proj
              (fun cl => (cl.row, cl.col)) (fun _ => rfl) (fun _ _ => rfl)
              rng s.board row col s.config.mines r c) hcoords
          have hnbflag : s.flagCount = (flaggedCount
              (placeMines rng s.board row col s.config.mines) : Int) := by
            rw [flaggedCount_placeMines]
            exact hflag
          have hnbnof : noOpenFlag
              (placeMines rng s.board row col s.config.mines) = true :=
            boardAll_of_proj (fun cl => (cl.isOpen, cl.isFlagged))
              (fun pr => !(pr.1 && pr.2)) (fun _ => rfl)
              (fun r c => cellAt_placeMines_proj
                (fun cl => (cl.isOpen, cl.isFlagged)) (fun _ => rfl)
                (fun _ _ => rfl) rng s.board row col s.config.mines r c)
              hnof'
          simp only [hT] at h
          rw [if_neg (by rw [hTm]; exact Bool.false_ne_true)] at h
          cases h
          exact inv_play_result
            (boardShape_opensOnly (floodFill_opensOnly _ _ row col)
              hnbshape)
            (coordsOK_of_proj (fun r c => opensOnly_proj
              (floodFill_opensOnly _ _ row col)
              (fun cl => (cl.row, cl.col)) (fun _ => rfl) r c)
              hnbcoords)
            (by rw [floodFill_flaggedCount]; exact hnbflag)
            (noOpenFlag_opensOnly hnbnof (floodFill_opensOnly _ _ row col))
        · rw [if_neg hid] at h
          simp only [hc] at h
          by_cases hm : cell.isMine = true
          · rw [if_pos hm] at h
            cases h
            exact inv_lost_result (boardShape_modifyCell row col _ hshape)
              (coordsOK_of_proj (fun r c => cellAt_modifyCell_proj
                (fun cl => (cl.row, cl.col)) s.board row col
                (fun cl => { cl with isOpen := true }) (fun _ => rfl) r c)
                hcoords)
              (by rw [flaggedCount_modifyCell_keep
                  (fun cl => { cl with isOpen := true }) (fun _ => rfl)]
                  exact hflag)
              (noOpenFlag_opensOnly hnof'
                (opensOnly_modify_open hc hcellflag))
          · rw [if_neg hm] at h
            cases h
            exact inv_play_result
              (boardShape_opensOnly (floodFill_opensOnly _ _ row col)
                hshape)
              (coordsOK_of_proj (fun r c => opensOnly_proj
                (floodFill_opensOnly _ _ row col)
                (fun cl => (cl.row, cl.col)) (fun _ => rfl) r c)
                hcoords)
              (by rw [floodFill_flaggedCount]; exact hflag)
              (noOpenFlag_opensOnly hnof'
                (floodFill_opensOnly _ _ row col))

theorem inv_chordOpen {s s' : MinesweeperState} {row col : Int}
    (hInv : Inv s) (h : chordOpen s row col = some s') : Inv s' := by
  obtain ⟨hshape, hcoords, hflag, hidle, hnof, hlost, hwon, hplay⟩ := hInv
  by_cases hp : s.status = GameStatus.playing
  case neg =>
    rw [chordOpen_terminal s row col hp] at h
    cases h
    exact ⟨hshape, hcoords, hflag, hidle, hnof, hlost, hwon, hplay⟩
  case pos =>
    have hnlost : s.status ≠ GameStatus.lost := by
      rw [hp]
      intro hcon
      exact GameStatus.noConfusion hcon
    have hnof' := hnof hnlost
    cases hc : cellAt s.board row col with
    | none =>
      rw [chordOpen_oob s row col hp hc] at h
      exact Option.noConfusion h
    | some cell =>
      by_cases hopen : cell.isOpen = true
      · by_cases hnc : cell.neighborCount = 0
        · rw [chordOpen_noop_cell s row col hp hc (Or.inr hnc)] at h
          cases h
          exact ⟨hshape, hcoords, hflag, hidle, hnof, hlost, hwon, hplay⟩
        · by_cases hfc : ((getNeighbors row col s.board).filter
              (fun n => n.isFlagged)).length = cell.neighborCount
          · rw [chordOpen_go hp hc hopen hnc hfc] at h
            have hoo := chordFold_opensOnly hcoords row col
            have hfcnt := chordFold_flaggedCount
              (getNeighbors row col s.board) s.board
            split at h
            · cases h
              exact inv_lost_result (boardShape_opensOnly hoo hshape)
                (coordsOK_of_proj (fun r c => opensOnly_proj hoo
                  (fun cl => (cl.row, cl.col)) (fun _ => rfl) r c) hcoords)
                (by rw [hfcnt]; exact hflag)
                (noOpenFlag_opensOnly hnof' hoo)
            · cases h
              exact inv_play_result (boardShape_opensOnly hoo hshape)
                (coordsOK_of_proj (fun r c => opensOnly_proj hoo
                  (fun cl => (cl.row, cl.col)) (fun _ => rfl) r c) hcoords)
                (by rw [hfcnt]; exact hflag)
                (noOpenFlag_opensOnly hnof' hoo)
          · rw [chordOpen_noop_flags s row col hp hc hopen hnc hfc] at h
            cases h
            exact ⟨hshape, hcoords, hflag, hidle, hnof, hlost, hwon, hplay⟩
      · rw [chordOpen_noop_cell s row col hp hc
          (Or.inl (by simpa using hopen))] at h
        cases h
        exact ⟨hshape, hcoords, hflag, hidle, hnof, hlost, hwon, hplay⟩

theorem inv_step {s : MinesweeperState} {a : Action}
    {s' : MinesweeperState} (hInv : Inv s) (h : step s a = some s') :
    Inv s' := by
  cases a with
  | openA rng r c => exact inv_openCell hInv h
  | flagA r c => exact inv_toggleFlag hInv h
  | chordA r c => exact inv_chordOpen hInv h
  | resetA cfg =>
    cases h
    exact inv_create _

theorem inv_runActions :
    ∀ (acts : List Action) (s s' : MinesweeperState), Inv s →
      runActions s acts = some s' → Inv s'
  | [], s, s', hInv, h => by
    cases h
    exact hInv
  | a :: acts, s, s', hInv, h => by
    unfold runActions at h
    cases hstep : step s a with
    | none => rw [hstep] at h; exact Option.noConfusion h
    | some s2 =>
      rw [hstep, Option.some_bind] at h
      exact inv_runActions acts s2 s' (inv_step hInv hstep) h

theorem reachable_inv {s : MinesweeperState} (h : Reachable s) : Inv s := by
  obtain ⟨cfg, acts, hrun⟩ := h
  exact inv_runActions acts (create cfg) s (inv_create cfg) hrun

/-! #### C2: open-and-flagged cells -/

/-- C2 counterexample: a reachable lost state holds a cell that is both
open and flagged: the loss reveal opened the flagged mine at (0,2)
without clearing its flag. -/
theorem C2_counterexample :
    runActions (create ⟨3, 3, 2⟩)
      [Action.openA rng0 0 0, Action.flagA 0 2, Action.openA rng0 1 2] =
      some c2State ∧
    ∃ cell, cellAt c2State.board 0 2 = some cell ∧
      cell.isOpen = true ∧ cell.isFlagged = true := by
  refine ⟨by decide, (⟨0, 2, true, true, true, 0⟩ : Cell), by decide, rfl,
    rfl⟩

/-- C2 (amended): in every reachable state, a simultaneously open and
flagged cell can only be a mine in a lost state (the loss reveal opens
flagged mines without clearing their flags); as long as the status is not
lost, no cell is both open and flagged. -/
theorem C2_open_flagged_only_lost_mine (s : MinesweeperState)
    (hs : Reachable s) (r c : Int) (cell : Cell)
    (hc : cellAt s.board r c = some cell) (hopen : cell.isOpen = true)
    (hflag : cell.isFlagged = true) :
    cell.isMine = true ∧ s.status = GameStatus.lost := by
  obtain ⟨_, _, _, _, hnof, hlost, _, _⟩ := reachable_inv hs
  by_cases hl : s.status = GameStatus.lost
  · have h2 := boardAll_iff.mp (hlost hl).2 r c cell hc
    rw [hopen, hflag] at h2
    simp at h2
    exact ⟨h2, hl⟩
  · have h1 := boardAll_iff.mp (hnof hl) r c cell hc
    rw [hopen, hflag] at h1
    simp at h1

/-- Witness for C2's amended theorem at the concrete lost state. -/
theorem C2_open_flagged_only_lost_mine_witness :
    (⟨0, 2, true, true, true, 0⟩ : Cell).isMine = true ∧
      c2State.status = GameStatus.lost :=
  C2_open_flagged_only_lost_mine c2State
    ⟨⟨3, 3, 2⟩, [Action.openA rng0 0 0, Action.flagA 0 2,
      Action.openA rng0 1 2], by decide⟩ 0 2
    (⟨0, 2, true, true, true, 0⟩ : Cell) (by decide) rfl rfl

/-! #### C6: loss reveals all mines -/

/-- C6: in every reachable state with status lost, every mine cell is
open. -/
theorem C6_loss_reveals_mines (s : MinesweeperState) (hs : Reachable s)
    (hlost : s.status = GameStatus.lost) (r c : Int) (cell : Cell)
    (hc : cellAt s.board r c = some cell) (hm : cell.isMine = true) :
    cell.isOpen = true := by
  obtain ⟨_, _, _, _, _, hl, _, _⟩ := reachable_inv hs
  have := boardAll_iff.mp (hl hlost).1 r c cell hc
  rw [hm] at this
  simpa using this

/-- Witness for C6 at the concrete lost state: the directly opened mine at
(1,2). -/
theorem C6_loss_reveals_mines_witness :
    (⟨1, 2, true, false, true, 0⟩ : Cell).isOpen = true :=
  C6_loss_reveals_mines c2State
    ⟨⟨3, 3, 2⟩, [Action.openA rng0 0 0, Action.flagA 0 2,
      Action.openA rng0 1 2], by decide⟩ (by decide) 1 2
    (⟨1, 2, true, false, true, 0⟩ : Cell) (by decide) rfl

/-! #### C7: flag-count invariant -/

/-- C7: in every reachable state `flagCount` equals the number of flagged
cells; `toggleFlag` on a closed cell during play adjusts it by exactly
plus or minus one; `reset` returns it to 0 on an all-unflagged board. -/
theorem C7_flag_count (s : MinesweeperState) (oc : Option GameConfig) :
    (Reachable s → s.flagCount = (flaggedCount s.board : Int)) ∧
    (∀ (row col : Int) (cell : Cell), s.status = GameStatus.playing →
      cellAt s.board row col = some cell → cell.isOpen = false →
      ∃ s', toggleFlag s row col = some s' ∧
        s'.flagCount = s.flagCount +
          (if cell.isFlagged then -1 else 1)) ∧
    (reset s oc).flagCount = 0 ∧
    flaggedCount (reset s oc).board = 0 := by
  refine ⟨fun hs => (reachable_inv hs).2.2.1, ?_, rfl, ?_⟩
  · intro row col cell hp hc hclosed
    have hterm : ¬(s.status = GameStatus.idle ∨
        s.status = GameStatus.won ∨ s.status = GameStatus.lost) := by
      rw [hp]
      rintro (hcon | hcon | hcon) <;> exact GameStatus.noConfusion hcon
    refine ⟨_, toggleFlag_go hterm hc hclosed, ?_⟩
    show s.flagCount + (if !cell.isFlagged then 1 else -1) =
      s.flagCount + (if cell.isFlagged then -1 else 1)
    by_cases hcf : cell.isFlagged = true
    · simp [hcf]
    · simp only [Bool.not_eq_true] at hcf
      simp [hcf]
  · show flaggedCount (createEmptyBoard (oc.getD s.config).rows
      (oc.getD s.config).cols) = 0
    exact flaggedCount_createEmptyBoard _ _

/-- Witness for C7 at the concrete playing state. -/
theorem C7_flag_count_witness :
    c7State.flagCount = (flaggedCount c7State.board : Int) ∧
    (∃ s', toggleFlag c7State 2 2 = some s' ∧
      s'.flagCount = c7State.flagCount +
        (if (⟨2, 2, false, false, false, 1⟩ : Cell).isFlagged then -1
         else 1)) ∧
    (reset c7State none).flagCount = 0 ∧
    flaggedCount (reset c7State none).board = 0 :=
  ⟨(C7_flag_count c7State none).1
      ⟨⟨3, 3, 2⟩, [Action.openA rng0 0 0, Action.flagA 0 2], by decide⟩,
    (C7_flag_count c7State none).2.1 2 2
      (⟨2, 2, false, false, false, 1⟩ : Cell) (by decide) (by decide) rfl,
    (C7_flag_count c7State none).2.2.1,
    (C7_flag_count c7State none).2.2.2⟩

/-! #### C5: win condition -/

theorem openCell_config {rng : Nat → Nat} {s s' : MinesweeperState}
    {row col : Int} (h : openCell rng s row col = some s') :
    s'.config = s.config := by
  by_cases hterm : s.status = GameStatus.won ∨ s.status = GameStatus.lost
  · rw [openCell_terminal rng s row col hterm] at h
    cases h
    rfl
  · cases hc : cellAt s.board row col with
    | none =>
      rw [openCell_oob rng s row col hterm hc] at h
      exact Option.noConfusion h
    | some cell =>
      by_cases hg : (cell.isOpen || cell.isFlagged) = true
      · rw [openCell_noop rng s row col hterm hc hg] at h
        cases h
        rfl
      · rw [openCell_proceed hterm hc (by simpa using hg)] at h
        cases hT : cellAt (if s.status = GameStatus.idle then
            placeMines rng s.board row col s.config.mines else s.board)
            row col with
        | none =>
          simp only [hT] at h
          exact Option.noConfusion h
        | some target =>
          simp only [hT] at h
          by_cases hm : target.isMine = true
          · rw [if_pos hm] at h
            cases h
            rfl
          · rw [if_neg hm] at h
            cases h
            rfl

theorem chordOpen_config {s s' : MinesweeperState} {row col : Int}
    (h : chordOpen s row col = some s') : s'.config = s.config := by
  by_cases hp : s.status = GameStatus.playing
  · cases hc : cellAt s.board row col with
    | none =>
      rw [chordOpen_oob s row col hp hc] at h
      exact Option.noConfusion h
    | some cell =>
      by_cases hopen : cell.isOpen = true
      · by_cases hnc : cell.neighborCount = 0
        · rw [chordOpen_noop_cell s row col hp hc (Or.inr hnc)] at h
          cases h
          rfl
        · by_cases hfc : ((getNeighbors row col s.board).filter
              (fun n => n.isFlagged)).length = cell.neighborCount
          · rw [chordOpen_go hp hc hopen hnc hfc] at h
            split at h
            · cases h
              rfl
            · cases h
              rfl
          · rw [chordOpen_noop_flags s row col hp hc hopen hnc hfc] at h
            cases h
            rfl
      · rw [chordOpen_noop_cell s row col hp hc
          (Or.inl (by simpa using hopen))] at h
        cases h
        rfl
  · rw [chordOpen_terminal s row col hp] at h
    cases h
    rfl

/-- C5: `checkWin` holds iff every non-mine cell is open, and after any
`open` or `chordOpen` on a reachable state (with a non-degenerate board)
that does not end in a loss, the resulting status is `won` iff every
non-mine cell of the resulting board is open. -/
theorem C5_win_condition :
    (∀ b : Board, checkWin b = true ↔
      (∀ (r c : Int) (cell : Cell), cellAt b r c = some cell →
        cell.isMine = false → cell.isOpen = true)) ∧
    (∀ (rng : Nat → Nat) (s s' : MinesweeperState) (row col : Int),
      Reachable s → 0 < s.config.rows → 0 < s.config.cols →
      openCell rng s row col = some s' → s'.status ≠ GameStatus.lost →
      (s'.status = GameStatus.won ↔ checkWin s'.board = true)) ∧
    (∀ (s s' : MinesweeperState) (row col : Int),
      Reachable s → 0 < s.config.rows → 0 < s.config.cols →
      chordOpen s row col = some s' → s'.status ≠ GameStatus.lost →
      (s'.status = GameStatus.won ↔ checkWin s'.board = true)) := by
  have hwin : ∀ (s' : MinesweeperState), Inv s' →
      s'.config.rows > 0 → s'.config.cols > 0 →
      s'.status ≠ GameStatus.lost →
      (s'.status = GameStatus.won ↔ checkWin s'.board = true) := by
    intro s' hInv hr hc hnl
    obtain ⟨_, _, _, hidle', _, _, hwon', hplay'⟩ := hInv
    cases hst : s'.status
    · constructor
      · intro hcon
        exact GameStatus.noConfusion hcon
      · intro hcw
        rw [hidle' hst] at hcw
        rw [checkWin_createEmptyBoard hr hc] at hcw
        exact Bool.noConfusion hcw
    · constructor
      · intro hcon
        exact GameStatus.noConfusion hcon
      · intro hcw
        rw [hplay' hst] at hcw
        exact Bool.noConfusion hcw
    · exact ⟨fun _ => hwon' hst, fun _ => rfl⟩
    · exact absurd hst hnl
  refine ⟨?_, ?_, ?_⟩
  · intro b
    rw [checkWin_eq_boardAll, boardAll_iff]
    constructor
    · intro h r c cell hc hm
      have := h r c cell hc
      rw [Bool.or_eq_true] at this
      rcases this with h1 | h1
      · exact h1
      · rw [hm] at h1
        exact Bool.noConfusion h1
    · intro h r c cell hc
      rw [Bool.or_eq_true]
      by_cases hm : cell.isMine = true
      · exact Or.inr hm
      · exact Or.inl (h r c cell hc (by simpa using hm))
  · intro rng s s' row col hreach hr hc hop hnl
    have hcfg : s'.config = s.config := openCell_config hop
    exact hwin s' (inv_openCell (reachable_inv hreach) hop)
      (by rw [hcfg]; exact hr) (by rw [hcfg]; exact hc) hnl
  · intro s s' row col hreach hr hc hop hnl
    have hcfg : s'.config = s.config := chordOpen_config hop
    exact hwin s' (inv_chordOpen (reachable_inv hreach) hop)
      (by rw [hcfg]; exact hr) (by rw [hcfg]; exact hc) hnl

/-- Witness for C5 at concrete inputs: opening the last safe cell of the
3-by-3 game yields status won, and a chord no-op on the playing state
keeps a non-won status. -/
theorem C5_win_condition_witness :
    (c5State.status = GameStatus.won ↔ checkWin c5State.board = true) ∧
    (c7State.status = GameStatus.won ↔ checkWin c7State.board = true) := by
  constructor
  · exact C5_win_condition.2.1 rng0 c7State c5State 2 2
      ⟨⟨3, 3, 2⟩, [Action.openA rng0 0 0, Action.flagA 0 2], by decide⟩
      (by decide) (by decide) (by decide) (by decide)
  · exact C5_win_condition.2.2 c7State c7State 1 1
      ⟨⟨3, 3, 2⟩, [Action.openA rng0 0 0, Action.flagA 0 2], by decide⟩
      (by decide) (by decide) (by decide) (by decide)

/-! #### C4: flood-fill closure — utility lemmas -/

theorem isOpenAt_opensOnly_mono {b b' : Board} (h : OpensOnly b b')
    {p : Int × Int} (hp : isOpenAt b p = true) : isOpenAt b' p = true := by
  unfold isOpenAt at hp ⊢
  cases hc : cellAt b p.1 p.2 with
  | none => rw [hc] at hp; exact Bool.noConfusion hp
  | some cell =>
    rw [hc] at hp
    rw [opensOnly_open_mono h hc hp]
    exact hp

theorem cellAt_eq_of_closed {b b' : Board} (h : OpensOnly b b')
    {p : Int × Int} (hp : isOpenAt b' p ≠ true) :
    cellAt b' p.1 p.2 = cellAt b p.1 p.2 := by
  rcases h.2.2 p.1 p.2 with he | ⟨cell, hb, _, _, hb'⟩
  · exact he
  · unfold isOpenAt at hp
    rw [hb'] at hp
    simp at hp

theorem isOpenAt_false_of_openable {b : Board} {p : Int × Int}
    (h : openableAt b p = true) : isOpenAt b p ≠ true := by
  unfold openableAt at h
  unfold isOpenAt
  cases hc : cellAt b p.1 p.2 with
  | none => simp
  | some cell =>
    rw [hc] at h
    simp only [Bool.and_eq_true, Bool.not_eq_true'] at h
    simp [h.1]

theorem isOpenAt_modify_open_self {b : Board} {q : Int × Int} {cell : Cell}
    (h : cellAt b q.1 q.2 = some cell) :
    isOpenAt (modifyCell b q.1 q.2
      (fun cl => { cl with isOpen := true })) q = true := by
  unfold isOpenAt
  rw [cellAt_modifyCell_self _ h]

theorem isOpenAt_modify_ne {b : Board} {q p : Int × Int}
    (f : Cell → Cell) (hne : p ≠ q) :
    isOpenAt (modifyCell b q.1 q.2 f) p = isOpenAt b p := by
  unfold isOpenAt
  rw [cellAt_modifyCell_of_ne b q.1 q.2 f p.1 p.2 (by
    intro hcon
    exact hne (Prod.ext hcon.1 hcon.2))]

theorem opensOnly_flag_back {b b' : Board} (h : OpensOnly b b')
    {p : Int × Int} {cell' : Cell} (hb' : cellAt b' p.1 p.2 = some cell') :
    ∃ cell, cellAt b p.1 p.2 = some cell ∧
      cell.isFlagged = cell'.isFlagged := by
  rcases h.2.2 p.1 p.2 with he | ⟨cell, hb, _, _, hb'2⟩
  · exact ⟨cell', he ▸ hb', rfl⟩
  · rw [hb'2] at hb'
    cases hb'
    exact ⟨cell, hb, rfl⟩

theorem openableAt_cases {b b' : Board} (h : OpensOnly b b')
    {p : Int × Int} (hp : openableAt b p = true) :
    openableAt b' p = true ∨ isOpenAt b' p = true := by
  unfold openableAt at hp ⊢
  unfold isOpenAt
  cases hc : cellAt b p.1 p.2 with
  | none => rw [hc] at hp; exact Bool.noConfusion hp
  | some cell =>
    rw [hc] at hp
    rcases h.2.2 p.1 p.2 with he | ⟨cell2, hb, _, _, hb'⟩
    · rw [he, hc]
      exact Or.inl hp
    · rw [hb] at hc
      cases hc
      rw [hb']
      exact Or.inr rfl

theorem expandableAt_spec {b : Board} {p : Int × Int} :
    expandableAt b p = true ↔
      ∃ cell, cellAt b p.1 p.2 = some cell ∧ cell.isOpen = false ∧
        cell.isFlagged = false ∧ cell.neighborCount = 0 ∧
        cell.isMine = false := by
  unfold expandableAt
  cases hc : cellAt b p.1 p.2 with
  | none =>
    simp
  | some cell =>
    simp only [Bool.and_eq_true, Bool.not_eq_true', beq_iff_eq,
      Option.some.injEq]
    constructor
    · rintro ⟨⟨⟨h1, h2⟩, h3⟩, h4⟩
      exact ⟨cell, rfl, h1, h2, h3, h4⟩
    · rintro ⟨cell2, he, h1, h2, h3, h4⟩
      cases he
      exact ⟨⟨⟨h1, h2⟩, h3⟩, h4⟩

theorem openableAt_spec {b : Board} {p : Int × Int} :
    openableAt b p = true ↔
      ∃ cell, cellAt b p.1 p.2 = some cell ∧ cell.isOpen = false ∧
        cell.isFlagged = false := by
  unfold openableAt
  cases hc : cellAt b p.1 p.2 with
  | none => simp
  | some cell =>
    simp only [Bool.and_eq_true, Bool.not_eq_true', Option.some.injEq]
    constructor
    · rintro ⟨h1, h2⟩
      exact ⟨cell, rfl, h1, h2⟩
    · rintro ⟨cell2, he, h1, h2⟩
      cases he
      exact ⟨h1, h2⟩

theorem isOpenAt_spec {b : Board} {p : Int × Int} :
    isOpenAt b p = true ↔
      ∃ cell, cellAt b p.1 p.2 = some cell ∧ cell.isOpen = true := by
  unfold isOpenAt
  cases hc : cellAt b p.1 p.2 with
  | none => simp
  | some cell =>
    simp only [Option.some.injEq]
    constructor
    · intro h
      exact ⟨cell, rfl, h⟩
    · rintro ⟨cell2, he, h1⟩
      cases he
      exact h1

theorem mem_neighborPositions_of_mem {b : Board} {r c : Int} {n : Cell}
    (h : n ∈ getNeighbors r c b) :
    (n.row, n.col) ∈ neighborPositions b r c := by
  unfold neighborPositions
  exact List.mem_map_of_mem _ h

theorem exists_cell_of_mem_neighborPositions {b : Board} {r c : Int}
    {p : Int × Int} (h : p ∈ neighborPositions b r c) :
    ∃ n ∈ getNeighbors r c b, n.row = p.1 ∧ n.col = p.2 := by
  unfold neighborPositions at h
  rw [List.mem_map] at h
  obtain ⟨n, hn, he⟩ := h
  exact ⟨n, hn, by rw [← he], by rw [← he]⟩

theorem expandableAt_eq_of_cellAt {b b' : Board} {p : Int × Int}
    (h : cellAt b' p.1 p.2 = cellAt b p.1 p.2) :
    expandableAt b' p = expandableAt b p := by
  unfold expandableAt
  rw [h]

theorem openableAt_eq_of_cellAt {b b' : Board} {p : Int × Int}
    (h : cellAt b' p.1 p.2 = cellAt b p.1 p.2) :
    openableAt b' p = openableAt b p := by
  unfold openableAt
  rw [h]

theorem openableAt_of_expandableAt {b : Board} {p : Int × Int}
    (h : expandableAt b p = true) : openableAt b p = true := by
  rw [expandableAt_spec] at h
  rw [openableAt_spec]
  obtain ⟨c, h1, h2, h3, _, _⟩ := h
  exact ⟨c, h1, h2, h3⟩

theorem floodFill_sound (b : Board) (start : Int × Int) :
    ∀ (fuel : Nat) (b' : Board) (q : Int × Int),
      OpensOnly b b' →
      (∀ p : Int × Int, isOpenAt b' p = true →
        isOpenAt b p = true ∨ FloodReach b start p) →
      (q = start ∨ ∃ p, FloodReach b start p ∧ expandableAt b p = true ∧
        q ∈ neighborPositions b p.1 p.2) →
      OpensOnly b (floodFill fuel b' q.1 q.2) ∧
      ∀ p : Int × Int, isOpenAt (floodFill fuel b' q.1 q.2) p = true →
        isOpenAt b p = true ∨ FloodReach b start p
  | 0, b', q, hoo, hreach, _ => ⟨hoo, hreach⟩
  | fuel + 1, b', q, hoo, hreach, hcall => by
    cases hc : cellAt b' q.1 q.2 with
    | none =>
      rw [floodFill_none fuel hc]
      exact ⟨hoo, hreach⟩
    | some cellq =>
      rw [floodFill_succ fuel hc]
      by_cases hguard : (cellq.isOpen || cellq.isFlagged) = true
      · rw [if_pos hguard]
        exact ⟨hoo, hreach⟩
      · rw [if_neg hguard]
        have hguard2 := hguard
        simp only [Bool.or_eq_true, not_or, Bool.not_eq_true] at hguard2
        have hcb : cellAt b q.1 q.2 = some cellq :=
          opensOnly_closed_eq hoo hc hguard2.1
        have hopenable : openableAt b q = true := by
          rw [openableAt_spec]
          exact ⟨cellq, hcb, hguard2.1, hguard2.2⟩
        have hq : FloodReach b start q := by
          rcases hcall with rfl | ⟨p, hp, hexp, hmem⟩
          · exact FloodReach.base hopenable
          · exact FloodReach.step p q hp hexp hmem hopenable
        have hoo1 : OpensOnly b (modifyCell b' q.1 q.2
            (fun cl => { cl with isOpen := true })) :=
          opensOnly_trans hoo (opensOnly_modify_open hc hguard2.2)
        have hreach1 : ∀ p : Int × Int,
            isOpenAt (modifyCell b' q.1 q.2
              (fun cl => { cl with isOpen := true })) p = true →
            isOpenAt b p = true ∨ FloodReach b start p := by
          intro p hp
          by_cases hpq : p = q
          · subst hpq
            exact Or.inr hq
          · rw [isOpenAt_modify_ne _ hpq] at hp
            exact hreach p hp
        by_cases hexp : (cellq.neighborCount = 0 && !cellq.isMine) = true
        · rw [if_pos hexp]
          have hexpb : expandableAt b q = true := by
            rw [expandableAt_spec]
            simp only [Bool.and_eq_true, Bool.not_eq_true',
              decide_eq_true_eq] at hexp
            exact ⟨cellq, hcb, hguard2.1, hguard2.2, hexp.1, hexp.2⟩
          have hpos : ∀ n ∈ getNeighbors q.1 q.2 (modifyCell b' q.1 q.2
              (fun cl => { cl with isOpen := true })),
              (n.row, n.col) ∈ neighborPositions b q.1 q.2 := by
            intro n hn
            have h1 := mem_neighborPositions_of_mem hn
            rwa [opensOnly_neighborPositions hoo1] at h1
          apply foldl_preserve_mem
            (P := fun bb => OpensOnly b bb ∧
              ∀ p : Int × Int, isOpenAt bb p = true →
                isOpenAt b p = true ∨ FloodReach b start p)
            _ _ ⟨hoo1, hreach1⟩
          intro bb n hn hbb
          exact floodFill_sound b start fuel bb (n.row, n.col) hbb.1 hbb.2
            (Or.inr ⟨q, hq, hexpb, hpos n hn⟩)
        · rw [if_neg hexp]
          exact ⟨hoo1, hreach1⟩

theorem floodFill_complete :
    ∀ (fuel : Nat) (b' : Board) (q : Int × Int),
      closedCount b' < fuel →
      (∀ cellq, cellAt b' q.1 q.2 = some cellq → cellq.isFlagged = false →
        isOpenAt (floodFill fuel b' q.1 q.2) q = true) ∧
      (∀ p : Int × Int, isOpenAt b' p ≠ true →
        isOpenAt (floodFill fuel b' q.1 q.2) p = true →
        expandableAt b' p = true →
        ∀ n ∈ neighborPositions b' p.1 p.2, openableAt b' n = true →
          isOpenAt (floodFill fuel b' q.1 q.2) n = true)
  | 0, b', q, hlt => absurd hlt (Nat.not_lt_zero _)
  | fuel + 1, b', q, hlt => by
    cases hc : cellAt b' q.1 q.2 with
    | none =>
      rw [floodFill_none fuel hc]
      refine ⟨?_, ?_⟩
      · intro cellq hcq
        exact absurd hcq (by simp)
      · intro p hclosed hopen
        exact absurd hopen hclosed
    | some cellq =>
      rw [floodFill_succ fuel hc]
      by_cases hguard : (cellq.isOpen || cellq.isFlagged) = true
      · rw [if_pos hguard]
        refine ⟨?_, ?_⟩
        · intro cellq2 hcq hflag
          cases hcq
          rw [isOpenAt_spec]
          refine ⟨cellq, hc, ?_⟩
          rcases Bool.or_eq_true _ _ |>.mp hguard with ho | hf
          · exact ho
          · rw [hflag] at hf
            exact absurd hf (by simp)
        · intro p hclosed hopen
          exact absurd hopen hclosed
      · rw [if_neg hguard]
        have hguard2 := hguard
        simp only [Bool.or_eq_true, not_or, Bool.not_eq_true] at hguard2
        have hlt1 : closedCount (modifyCell b' q.1 q.2
            (fun cl => { cl with isOpen := true })) < fuel := by
          have h1 := closedCount_modifyCell_open_lt hc hguard2.1
          omega
        by_cases hexp : (cellq.neighborCount = 0 && !cellq.isMine) = true
        · rw [if_pos hexp]
          -- the fold over the neighbour list, relative to its entry board
          have hfold : ∀ (l : List Cell) (bb : Board),
              closedCount bb < fuel →
              OpensOnly bb (l.foldl
                (fun bb2 n => floodFill fuel bb2 n.row n.col) bb) ∧
              (∀ n ∈ l, ∀ cn, cellAt bb n.row n.col = some cn →
                cn.isFlagged = false →
                isOpenAt (l.foldl
                  (fun bb2 n => floodFill fuel bb2 n.row n.col) bb)
                  (n.row, n.col) = true) ∧
              (∀ p : Int × Int, isOpenAt bb p ≠ true →
                isOpenAt (l.foldl
                  (fun bb2 n => floodFill fuel bb2 n.row n.col) bb)
                  p = true →
                expandableAt bb p = true →
                ∀ n ∈ neighborPositions bb p.1 p.2,
                  openableAt bb n = true →
                  isOpenAt (l.foldl
                    (fun bb2 n => floodFill fuel bb2 n.row n.col) bb)
                    n = true) := by
            intro l
            induction l with
            | nil =>
              intro bb _
              refine ⟨opensOnly_refl bb, by simp, ?_⟩
              intro p hclosed hopen
              exact absurd hopen hclosed
            | cons x xs ih =>
              intro bb hltb
              simp only [List.foldl_cons]
              have hooh : OpensOnly bb (floodFill fuel bb x.row x.col) :=
                floodFill_opensOnly fuel bb x.row x.col
              have hlth : closedCount (floodFill fuel bb x.row x.col) <
                  fuel :=
                Nat.lt_of_le_of_lt
                  (floodFill_closedCount_le fuel bb x.row x.col) hltb
              obtain ⟨ihoo, ihopen, ihsat⟩ :=
                ih (floodFill fuel bb x.row x.col) hlth
              have hmain := floodFill_complete fuel bb (x.row, x.col) hltb
              refine ⟨opensOnly_trans hooh ihoo, ?_, ?_⟩
              · intro n hn cn hcn hcnflag
                rcases List.mem_cons.mp hn with rfl | hn'
                · exact isOpenAt_opensOnly_mono ihoo
                    (hmain.1 cn hcn hcnflag)
                · by_cases hob :
                      isOpenAt (floodFill fuel bb x.row x.col)
                        (n.row, n.col) = true
                  · exact isOpenAt_opensOnly_mono ihoo hob
                  · have hcell1 :
                        cellAt (floodFill fuel bb x.row x.col)
                          n.row n.col = cellAt bb n.row n.col :=
                      cellAt_eq_of_closed hooh (p := (n.row, n.col)) hob
                    exact ihopen n hn' cn (by rw [hcell1]; exact hcn)
                      hcnflag
              · intro p hclosed hopenRES hpexp n hnmem hnopenable
                by_cases hob :
                    isOpenAt (floodFill fuel bb x.row x.col) p = true
                · exact isOpenAt_opensOnly_mono ihoo
                    (hmain.2 p hclosed hob hpexp n hnmem hnopenable)
                · have hcellp :
                      cellAt (floodFill fuel bb x.row x.col) p.1 p.2 =
                        cellAt bb p.1 p.2 :=
                    cellAt_eq_of_closed hooh hob
                  have hpexp1 :
                      expandableAt (floodFill fuel bb x.row x.col) p =
                        true := by
                    rw [expandableAt_eq_of_cellAt hcellp]
                    exact hpexp
                  have hnmem1 : n ∈ neighborPositions
                      (floodFill fuel bb x.row x.col) p.1 p.2 := by
                    rw [opensOnly_neighborPositions hooh]
                    exact hnmem
                  by_cases hnop :
                      isOpenAt (floodFill fuel bb x.row x.col) n = true
                  · exact isOpenAt_opensOnly_mono ihoo hnop
                  · have hcelln :
                        cellAt (floodFill fuel bb x.row x.col) n.1 n.2 =
                          cellAt bb n.1 n.2 :=
                      cellAt_eq_of_closed hooh hnop
                    have hnopenable1 :
                        openableAt (floodFill fuel bb x.row x.col) n =
                          true := by
                      rw [openableAt_eq_of_cellAt hcelln]
                      exact hnopenable
                    exact ihsat p hob hopenRES hpexp1 n hnmem1 hnopenable1
          obtain ⟨foo, fopen, fsat⟩ :=
            hfold (getNeighbors q.1 q.2 (modifyCell b' q.1 q.2
              (fun cl => { cl with isOpen := true })))
              (modifyCell b' q.1 q.2
                (fun cl => { cl with isOpen := true })) hlt1
          have hoo1 : OpensOnly b' (modifyCell b' q.1 q.2
              (fun cl => { cl with isOpen := true })) :=
            opensOnly_modify_open hc hguard2.2
          refine ⟨?_, ?_⟩
          · intro cellq2 hcq hflag
            exact isOpenAt_opensOnly_mono foo
              (isOpenAt_modify_open_self hc)
          · intro p hclosed hopenRES hpexp n hnmem hnopenable
            by_cases hpq : p = q
            · -- the clicked cell itself: every openable neighbour is in
              -- the fold's list and gets opened by its own call
              subst hpq
              have hnmem1 : n ∈ neighborPositions (modifyCell b' p.1 p.2
                  (fun cl => { cl with isOpen := true })) p.1 p.2 := by
                rw [opensOnly_neighborPositions hoo1]
                exact hnmem
              obtain ⟨ncell, hncell, hr1, hr2⟩ :=
                exists_cell_of_mem_neighborPositions hnmem1
              by_cases hnop : isOpenAt (modifyCell b' p.1 p.2
                  (fun cl => { cl with isOpen := true })) n = true
              · exact isOpenAt_opensOnly_mono foo hnop
              · have hcelln : cellAt (modifyCell b' p.1 p.2
                    (fun cl => { cl with isOpen := true })) n.1 n.2 =
                      cellAt b' n.1 n.2 :=
                  cellAt_eq_of_closed hoo1 hnop
                obtain ⟨cn, hcn, hcncl, hcnfl⟩ :=
                  openableAt_spec.mp hnopenable
                have hne : (ncell.row, ncell.col) = n :=
                  Prod.ext hr1 hr2
                have hres := fopen ncell hncell cn (by
                  rw [hr1, hr2, hcelln]
                  exact hcn) hcnfl
                rw [hne] at hres
                exact hres
            · -- a deeper cell: transfer through the single opened cell
              have hclosed1 : isOpenAt (modifyCell b' q.1 q.2
                  (fun cl => { cl with isOpen := true })) p ≠ true := by
                rw [isOpenAt_modify_ne _ hpq]
                exact hclosed
              have hcellp : cellAt (modifyCell b' q.1 q.2
                  (fun cl => { cl with isOpen := true })) p.1 p.2 =
                    cellAt b' p.1 p.2 :=
                cellAt_modifyCell_of_ne b' q.1 q.2 _ p.1 p.2 (by
                  intro hcon
                  exact hpq (Prod.ext hcon.1 hcon.2))
              have hpexp1 : expandableAt (modifyCell b' q.1 q.2
                  (fun cl => { cl with isOpen := true })) p = true := by
                rw [expandableAt_eq_of_cellAt hcellp]
                exact hpexp
              have hnmem1 : n ∈ neighborPositions (modifyCell b' q.1 q.2
                  (fun cl => { cl with isOpen := true })) p.1 p.2 := by
                rw [opensOnly_neighborPositions hoo1]
                exact hnmem
              by_cases hnop : isOpenAt (modifyCell b' q.1 q.2
                  (fun cl => { cl with isOpen := true })) n = true
              · exact isOpenAt_opensOnly_mono foo hnop
              · have hcelln : cellAt (modifyCell b' q.1 q.2
                    (fun cl => { cl with isOpen := true })) n.1 n.2 =
                      cellAt b' n.1 n.2 :=
                  cellAt_eq_of_closed hoo1 hnop
                have hnopenable1 : openableAt (modifyCell b' q.1 q.2
                    (fun cl => { cl with isOpen := true })) n = true := by
                  rw [openableAt_eq_of_cellAt hcelln]
                  exact hnopenable
                exact fsat p hclosed1 hopenRES hpexp1 n hnmem1 hnopenable1
        · rw [if_neg hexp]
          refine ⟨?_, ?_⟩
          · intro cellq2 hcq hflag
            exact isOpenAt_modify_open_self hc
          · intro p hclosed hopen hpexp
            by_cases hpq : p = q
            · subst hpq
              obtain ⟨cellp, hcp, _, _, hnc, hmine⟩ :=
                expandableAt_spec.mp hpexp
              rw [hc] at hcp
              cases hcp
              exact absurd (by simp [hnc, hmine]) hexp
            · rw [isOpenAt_modify_ne _ hpq] at hopen
              exact absurd hopen hclosed

theorem floodFill_closure {b : Board} {fuel : Nat} (r c : Int)
    (hfuel : closedCount b < fuel) (p : Int × Int) :
    isOpenAt (floodFill fuel b r c) p = true ↔
      (isOpenAt b p = true ∨ FloodReach b (r, c) p) := by
  constructor
  · intro h
    exact (floodFill_sound b (r, c) fuel b (r, c) (opensOnly_refl b)
      (fun p2 hp2 => Or.inl hp2) (Or.inl rfl)).2 p h
  · intro h
    rcases h with h | h
    · exact isOpenAt_opensOnly_mono (floodFill_opensOnly fuel b r c) h
    · induction h with
      | base hop =>
        obtain ⟨cl, hcell, _, hfl⟩ := openableAt_spec.mp hop
        exact (floodFill_complete fuel b (r, c) hfuel).1 cl hcell hfl
      | step p2 q2 hr hexp hmem hop ih =>
        exact (floodFill_complete fuel b (r, c) hfuel).2 p2
          (isOpenAt_false_of_openable (openableAt_of_expandableAt hexp))
          ih hexp q2 hmem hop

theorem openCell_playing_board {rng : Nat → Nat} {s : MinesweeperState}
    {row col : Int} {cell : Cell}
    (hp : s.status = GameStatus.playing)
    (hc : cellAt s.board row col = some cell)
    (hopen : cell.isOpen = false) (hflag : cell.isFlagged = false)
    (hmine : cell.isMine = false) :
    openCell rng s row col = some { s with
      board := floodFill (totalCells s.board + 1) s.board row col,
      status := if checkWin (floodFill (totalCells s.board + 1)
          s.board row col) then GameStatus.won
        else GameStatus.playing } := by
  rw [openCell_proceed (by rw [hp]; rintro (hcon | hcon) <;>
      exact GameStatus.noConfusion hcon) hc
    (by rw [hopen, hflag]; rfl)]
  rw [if_neg (fun hcon => by
    rw [hp] at hcon
    exact GameStatus.noConfusion hcon)]
  simp only [hc]
  rw [if_neg (fun hcon => by
    rw [hmine] at hcon
    exact Bool.noConfusion hcon)]

/-- C4 counterexample to the literal claim: on the reachable 3-by-5 state
`c4State` (mines down the middle column, flag at (1,4)), the clicked cell
(0,4) and the cell (2,4) lie in the same maximal connected region of
zero-neighborCount cells — as the spec words it, via the chain
(0,4)-(1,4)-(2,4) — yet opening (0,4) leaves (2,4) closed: the flag at
(1,4) blocks the flood fill. -/
theorem C4_counterexample :
    runActions (create ⟨3, 5, 3⟩)
      [Action.openA (rngL [0, 2, 6]) 0 0, Action.flagA 1 4] =
        some c4State ∧
    c4State.status = GameStatus.playing ∧
    cellAt c4State.board 0 4 =
      some (⟨0, 4, false, false, false, 0⟩ : Cell) ∧
    SpecZeroReach c4State.board (0, 4) (2, 4) ∧
    ∃ s', openCell rng0 c4State 0 4 = some s' ∧
      isOpenAt s'.board (2, 4) = false := by
  refine ⟨by decide, by decide, by decide, ?_, ?_⟩
  · exact SpecZeroReach.step (1, 4) (2, 4)
      (SpecZeroReach.step (0, 4) (1, 4) SpecZeroReach.base (by decide)
        (by decide)) (by decide) (by decide)
  · exact ⟨(openCell rng0 c4State 0 4).getD c4State, by decide, by decide⟩

/-- C4 (amended): in a playing state, opening a closed, unflagged,
zero-count, non-mine cell opens exactly the cells flood-reachable from it:
the connected region of closed, unflagged zero-count non-mine cells
containing the clicked cell, plus the closed unflagged cells immediately
bordering that region — already-open and flagged cells block propagation
and stay as they are, and no other cell or field changes. -/
theorem C4_flood_closure (rng : Nat → Nat) (s : MinesweeperState)
    (row col : Int) (cell : Cell)
    (hp : s.status = GameStatus.playing)
    (hc : cellAt s.board row col = some cell)
    (hopen : cell.isOpen = false) (hflag : cell.isFlagged = false)
    (hnc : cell.neighborCount = 0) (hmine : cell.isMine = false) :
    ∃ s', openCell rng s row col = some s' ∧
      OpensOnly s.board s'.board ∧
      ∀ p : Int × Int, isOpenAt s'.board p = true ↔
        (isOpenAt s.board p = true ∨
          FloodReach s.board (row, col) p) := by
  refine ⟨_, openCell_playing_board hp hc hopen hflag hmine, ?_, ?_⟩
  · exact floodFill_opensOnly _ s.board row col
  · intro p
    exact floodFill_closure row col (Nat.lt_of_le_of_lt
      (closedCount_le_totalCells s.board) (Nat.lt_succ_self _)) p

/-- Witness for C4 (amended) at concrete input: opening the zero cell
(0,4) of `c4State` is characterised by flood reachability. -/
theorem C4_flood_closure_witness :
    c4State.status = GameStatus.playing ∧
    cellAt c4State.board 0 4 =
      some (⟨0, 4, false, false, false, 0⟩ : Cell) ∧
    ∃ s', openCell rng0 c4State 0 4 = some s' ∧
      OpensOnly c4State.board s'.board ∧
      ∀ p : Int × Int, isOpenAt s'.board p = true ↔
        (isOpenAt c4State.board p = true ∨
          FloodReach c4State.board (0, 4) p) :=
  ⟨by decide, by decide,
    C4_flood_closure rng0 c4State 0 4
      (⟨0, 4, false, false, false, 0⟩ : Cell) (by decide) (by decide)
      rfl rfl rfl rfl⟩

end Minesweeper
